import Mathlib

/-!
Verification of the checksum-protected paged file layer (`CheckedFile.cpp`)
of libE57Format.

The file image (on-disk bytes for the file backend, the caller's buffer for
the memory backend) is modelled as a total function `Nat → Nat` giving the
byte at each physical offset, together with an explicit physical length.
Machine integers of the source (`uint64_t`, `size_t`, `uint32_t`) are
modelled as `Nat`; 32-bit wraparound is made explicit with masks where the
source relies on `uint32_t` arithmetic.  Fallible operations return
`Except E57Err`.
-/

deriving instance DecidableEq for Except

namespace E57

/-- Error kinds thrown by CheckedFile (spec section 7; `E57_EXCEPTION2` sites
in CheckedFile.cpp). -/
inductive E57Err
  | openFailed
  | seekFailed
  | readFailed
  | writeFailed
  | closeFailed
  | badChecksum
  | fileReadOnly
  | internal
deriving DecidableEq, Repr

/-- Offset mode of the logical stream API (`CheckedFile::OffsetMode`). -/
inductive OffsetMode
  | physical
  | logical
deriving DecidableEq, Repr

/-- Page geometry constant `CheckedFile::physicalPageSizeLog2 = 10`. -/
def physicalPageSizeLog2 : Nat := 10

/-- Page geometry constant `CheckedFile::physicalPageSize = 1024`. -/
def physicalPageSize : Nat := 2 ^ physicalPageSizeLog2

/-- Page geometry constant `CheckedFile::physicalPageSizeMask = 1023`. -/
def physicalPageSizeMask : Nat := physicalPageSize - 1

/-- Checksum size: 4 bytes stored at the tail of every physical page. -/
def checksumSize : Nat := 4

/-- Page geometry constant `CheckedFile::logicalPageSize = 1020`. -/
def logicalPageSize : Nat := physicalPageSize - checksumSize

/-- Modelled from the spec: `CheckedFile::logicalToPhysical` lives in
CheckedFile.h, which is not under src/ (spec section 3: `P = (L /
logicalPageSize) * physicalPageSize + (L mod logicalPageSize)`). -/
def logicalToPhysical (l : Nat) : Nat :=
  (l / logicalPageSize) * physicalPageSize + l % logicalPageSize

/-- Modelled from the spec: `CheckedFile::physicalToLogical` lives in
CheckedFile.h, which is not under src/ (spec section 3: with `q = P >>
physicalPageSizeLog2` and `r = P and physicalPageSizeMask`, the result is `q *
logicalPageSize + r` when `r ≤ logicalPageSize` and `(q+1) * logicalPageSize`
otherwise). -/
def physicalToLogical (p : Nat) : Nat :=
  let q := p >>> physicalPageSizeLog2
  let r := p &&& physicalPageSizeMask
  if r ≤ logicalPageSize then q * logicalPageSize + r else (q + 1) * logicalPageSize

/-- CheckedFile.cpp lines 97-102, `swap_uint32`: swap the two 16-bit halves of
a 32-bit value and the two bytes within each half.  `uint32_t` arithmetic is
modelled on `Nat` with explicit masking of shifted values. -/
def swap_uint32 (val : Nat) : Nat :=
  let v := ((val <<< 8) &&& 0xFF00FF00) ||| ((val >>> 8) &&& 0x00FF00FF)
  ((v <<< 16) &&& 0xFFFFFFFF) ||| (v >>> 16)

/-- Modelled from the spec: the CRC library consumed by `checksum`
(CRC.h, CRCpp) is not under src/.  Spec section 4.1: CRC-32C with the
Castagnoli polynomial 0x1EDC6F41, initial value 0xFFFFFFFF, final XOR
0xFFFFFFFF, input reflected, output reflected.  This is the standard
bit-at-a-time reflected formulation, whose shift constant 0x82F63B78 is the
bit-reversal of 0x1EDC6F41.  One shift-and-conditionally-xor step: -/
def crc32cStep (c : Nat) : Nat :=
  if c % 2 = 1 then (c / 2) ^^^ 0x82F63B78 else c / 2

/-- Modelled from the spec (see `crc32cStep`): absorb one input byte into the
reflected CRC state. -/
def crc32cByte (c b : Nat) : Nat := crc32cStep^[8] (c ^^^ b)

/-- Modelled from the spec (see `crc32cStep`): CRC-32C of a byte list. -/
def crc32c (l : List Nat) : Nat := (l.foldl crc32cByte 0xFFFFFFFF) ^^^ 0xFFFFFFFF

/-- CheckedFile.cpp lines 105-118, `checksum`: CRC-32C of the given bytes,
then `swap_uint32` (the format quirk the source preserves). -/
def checksum (l : List Nat) : Nat := swap_uint32 (crc32c l)

/-- The CheckedFile state.  `data` is the physical image (file bytes for the
file backend), `physLen` its length in bytes, `cursor` the physical position
maintained by the backend, `logicalLength` the cached `logicalLength_`
member, `readOnly` the `readOnly_` member and `checkSumPolicy` the
`checkSumPolicy_` member (0 = ChecksumNone, 100 = ChecksumAll, any other
value = the sampled percentage). -/
structure CheckedFile where
  data : Nat → Nat
  physLen : Nat
  cursor : Nat
  logicalLength : Nat
  readOnly : Bool
  checkSumPolicy : Nat

/-- CheckedFile.cpp lines 202-216: the Write-mode constructor truncates the
file to zero length; members default to cursor 0, logical length 0, not
read-only. -/
def freshWrite (policy : Nat) : CheckedFile :=
  { data := fun _ => 0
    physLen := 0
    cursor := 0
    logicalLength := 0
    readOnly := false
    checkSumPolicy := policy }

/-- CheckedFile.cpp lines 502-513, `CheckedFile::position`: the backend
cursor, converted by `physicalToLogical` in Logical mode. -/
def CheckedFile.position (cf : CheckedFile) (omode : OffsetMode) : Nat :=
  match omode with
  | .physical => cf.cursor
  | .logical => physicalToLogical cf.cursor

/-- CheckedFile.cpp lines 515-537, `CheckedFile::length`: Physical mode
queries the backend end position (the cached value and the queried value
agree in this model, where `physLen` tracks the image length exactly);
Logical mode returns the cached `logicalLength_`. -/
def CheckedFile.length (cf : CheckedFile) (omode : OffsetMode) : Nat :=
  match omode with
  | .physical => cf.physLen
  | .logical => cf.logicalLength

/-- CheckedFile.cpp lines 453-464, `CheckedFile::seek`: convert a Logical
offset with `logicalToPhysical`, then `lseek64(pos, SEEK_SET)`.  For the file
backend an absolute seek to a nonnegative offset always succeeds. -/
def CheckedFile.seek (cf : CheckedFile) (offset : Nat) (omode : OffsetMode) : CheckedFile :=
  { cf with cursor := match omode with
      | .physical => offset
      | .logical => logicalToPhysical offset }

/-- CheckedFile.cpp lines 700-714, `CheckedFile::getCurrentPageAndOffset` in
Logical mode (the default): `page = pos / logicalPageSize`, `pageOffset =
pos - page * logicalPageSize`. -/
def CheckedFile.getCurrentPageAndOffset (cf : CheckedFile) : Nat × Nat :=
  let pos := cf.position .logical
  (pos / logicalPageSize, pos % logicalPageSize)

/-- POSIX positioned write of `len` bytes `bytes` at offset `pos`: overwrites
`[pos, pos+len)`, zero-fills any hole `[physLen, pos)` created by writing
past the end of the file, and extends the length. -/
def backendWriteAt (cf : CheckedFile) (pos : Nat) (bytes : Nat → Nat) (len : Nat) : CheckedFile :=
  { cf with
    data := fun i =>
      if pos ≤ i ∧ i < pos + len then bytes (i - pos)
      else if cf.physLen ≤ i ∧ i < pos then 0
      else cf.data i
    physLen := max cf.physLen (pos + len)
    cursor := pos + len }

/-- The 1024 bytes of physical page `page` of the image, as a function. -/
def pageBytes (cf : CheckedFile) (page : Nat) : Nat → Nat :=
  fun j => cf.data (page * physicalPageSize + j)

/-- CheckedFile.cpp lines 716-750, `CheckedFile::readPhysicalPage` (file
backend): seek to `page * physicalPageSize`, `::read` physicalPageSize bytes;
a result differing from physicalPageSize (POSIX returns the number of bytes
available before end of file) raises ReadFailed. -/
def readPhysicalPageF (cf : CheckedFile) (page : Nat) : Except E57Err (Nat → Nat) :=
  if page * physicalPageSize + physicalPageSize ≤ cf.physLen then
    .ok (pageBytes cf page)
  else
    .error .readFailed

/-- Little-endian byte `j` of a 32-bit value: what the source's
`*reinterpret_cast` store of the checksum puts at page offset
`logicalPageSize + j` on the (little-endian) platforms the format targets
(spec section 4.1). -/
def le4 (v j : Nat) : Nat := v / 256 ^ j % 256

/-- The first `n` bytes of a page buffer as a list (the region covered by
`checksum(page_buffer, logicalPageSize)`). -/
def bufList (buf : Nat → Nat) (n : Nat) : List Nat := (List.range n).map buf

/-- `checksum` applied to the data region `[0, logicalPageSize)` of a page
buffer, as done by both `writePhysicalPage` and `verifyChecksum`. -/
def checksumF (buf : Nat → Nat) : Nat := checksum (bufList buf logicalPageSize)

/-- CheckedFile.cpp lines 758-761: store the computed checksum into the tail
`[logicalPageSize, physicalPageSize)` of the page buffer (little-endian, see
`le4`). -/
def setChecksum (buf : Nat → Nat) : Nat → Nat :=
  fun j =>
    if logicalPageSize ≤ j ∧ j < physicalPageSize then le4 (checksumF buf) (j - logicalPageSize)
    else buf j

/-- CheckedFile.cpp lines 752-779, `CheckedFile::writePhysicalPage`, with the
return value of the backend `::write` left as a parameter `result`: append
the checksum to the buffer, seek to `page * physicalPageSize`, request a
write of exactly physicalPageSize bytes.  The backend accepts
`min result physicalPageSize` bytes, and the source raises WriteFailed
exactly when `result < 0`. -/
def writePhysicalPageW (cf : CheckedFile) (buf : Nat → Nat) (page : Nat) (result : Int) :
    Except E57Err (CheckedFile × (Nat → Nat)) :=
  let buf' := setChecksum buf
  if result < 0 then .error .writeFailed
  else .ok (backendWriteAt cf (page * physicalPageSize) buf' (min result.toNat physicalPageSize),
            buf')

/-- `CheckedFile::writePhysicalPage` when the backend accepts the whole page
(the `result = physicalPageSize` case of `writePhysicalPageW`): returns the
new state and the buffer (which now carries the stored checksum). -/
def writePhysicalPage (cf : CheckedFile) (buf : Nat → Nat) (page : Nat) :
    CheckedFile × (Nat → Nat) :=
  let buf' := setChecksum buf
  (backendWriteAt cf (page * physicalPageSize) buf' physicalPageSize, buf')

/-- The 32-bit value read back from the checksum tail of a page buffer by the
`*reinterpret_cast<uint32_t *>` in `verifyChecksum` (little-endian hosts). -/
def bufStored (buf : Nat → Nat) : Nat :=
  buf logicalPageSize + 256 * buf (logicalPageSize + 1) +
    65536 * buf (logicalPageSize + 2) + 16777216 * buf (logicalPageSize + 3)

/-- CheckedFile.cpp lines 683-698, `CheckedFile::verifyChecksum`: recompute
the checksum of the data region and compare with the stored tail; mismatch
raises BadChecksum. -/
def verifyChecksum (buf : Nat → Nat) : Except E57Err Unit :=
  if bufStored buf ≠ checksumF buf then .error .badChecksum else .ok ()

/-- Whether the stored checksum of page `p` of the image matches the
recomputed one (the condition under which `verifyChecksum` succeeds on that
page). -/
def pageOKb (cf : CheckedFile) (p : Nat) : Bool :=
  bufStored (pageBytes cf p) == checksumF (pageBytes cf p)

/-- CheckedFile.cpp line 311: `nearbyint(100.0 / policy)` for an integer
policy, i.e. 100/policy rounded to the nearest integer, ties to even (the
default rounding mode).  For every policy in [1,100] the double division is
close enough to the rational value that the two roundings agree; the value
is unused when the policy is 0 (ChecksumNone) or 100 (ChecksumAll). -/
def checksumMod (policy : Nat) : Nat :=
  if policy = 0 then 0
  else
    let q := 100 / policy
    let r := 100 % policy
    if 2 * r < policy then q
    else if policy < 2 * r then q + 1
    else if q % 2 = 0 then q else q + 1

/-- CheckedFile.cpp lines 317-332: the checksum-policy switch in the read
loop.  ChecksumNone never verifies, ChecksumAll always verifies, and the
sampled default verifies when `page % checksumMod == 0` or fewer than
physicalPageSize bytes remain to be read. -/
def shouldVerify (policy mod nRead page : Nat) : Bool :=
  if policy = 0 then false
  else if policy = 100 then true
  else page % mod == 0 || nRead < physicalPageSize

/-- Number of pages covered by `n` bytes starting at a page boundary: the
number of iterations of the read/write loops of CheckedFile.cpp once the
first (possibly partial) page has been consumed. -/
def numPages (n : Nat) : Nat := (n + (logicalPageSize - 1)) / logicalPageSize

/-- One iteration of the read loop, CheckedFile.cpp lines 313-342: read the
physical page, verify its checksum according to the policy switch, and copy
`n` bytes starting at `off` within the page data region. -/
def readStep (cf : CheckedFile) (off n page nRead : Nat) : Except E57Err (List Nat) :=
  match readPhysicalPageF cf page with
  | .error e => .error e
  | .ok buf =>
    match (if shouldVerify cf.checkSumPolicy (checksumMod cf.checkSumPolicy) nRead page then
             verifyChecksum buf
           else .ok ()) with
    | .error e => .error e
    | .ok () => .ok ((List.range n).map fun j => buf (off + j))

/-- The read loop of CheckedFile.cpp lines 313-342 after its first
iteration: from the second iteration on `pageOffset` is 0 and each iteration
copies `min nRead logicalPageSize` bytes (spec section 9, note 3 blesses
this first-partial-page-then-full-pages restatement).  The loop runs one
iteration per remaining page; `fuel` is that page count (callers pass
`numPages nRead`, which is exact), making the recursion structural so that
the definition computes by kernel reduction. -/
def readLoop (cf : CheckedFile) (nRead page fuel : Nat) : Except E57Err (List Nat) :=
  match fuel with
  | 0 => .ok []
  | fuel + 1 =>
    if nRead = 0 then .ok []
    else
      match readStep cf 0 (min nRead logicalPageSize) page nRead with
      | .error e => .error e
      | .ok chunk =>
        match readLoop cf (nRead - min nRead logicalPageSize) (page + 1) fuel with
        | .error e => .error e
        | .ok rest => .ok (chunk ++ rest)

/-- The whole read loop of CheckedFile.cpp lines 313-342, starting at page
`page` with in-page offset `off`: first iteration copies
`min nRead (logicalPageSize - off)` bytes, the rest is `readLoop` with one
unit of fuel per remaining page. -/
def readPages (cf : CheckedFile) (nRead off page : Nat) : Except E57Err (List Nat) :=
  if nRead = 0 then .ok []
  else
    match readStep cf off (min nRead (logicalPageSize - off)) page nRead with
    | .error e => .error e
    | .ok chunk =>
      match readLoop cf (nRead - min nRead (logicalPageSize - off)) (page + 1)
          (numPages (nRead - min nRead (logicalPageSize - off))) with
      | .error e => .error e
      | .ok rest => .ok (chunk ++ rest)

/-- CheckedFile.cpp lines 285-346, `CheckedFile::read`: raise Internal when
`position(Logical) + nRead` exceeds `length(Logical)`; otherwise copy page by
page (`readPages`) and leave the cursor just past the end of the read. -/
def CheckedFile.read (cf : CheckedFile) (nRead : Nat) : Except E57Err (CheckedFile × List Nat) :=
  let endPos := cf.position .logical + nRead
  if cf.length .logical < endPos then .error .internal
  else
    match readPages cf nRead (cf.getCurrentPageAndOffset.2) (cf.getCurrentPageAndOffset.1) with
    | .error e => .error e
    | .ok out => .ok (cf.seek endPos .logical, out)

/-- The byte list produced by a read, with the final state discarded. -/
def readResult (cf : CheckedFile) (nRead : Nat) : Except E57Err (List Nat) :=
  match cf.read nRead with
  | .error e => .error e
  | .ok (_, out) => .ok out

/-- One iteration of the write loop, CheckedFile.cpp lines 372-398 (and of
the extend loop, lines 599-628, whose `memset(page_buffer + pageOffset, 0,
n)` equals copying from an all-zero source): if the page already exists on
disk, load it into the buffer; overwrite `[off, off + n)` with the next
source bytes; write the page back with a fresh checksum. -/
def writePageStep (cf : CheckedFile) (buf src : Nat → Nat) (off n page : Nat) :
    Except E57Err (CheckedFile × (Nat → Nat)) :=
  match (if page * physicalPageSize < cf.length .physical then readPhysicalPageF cf page
         else .ok buf) with
  | .error e => .error e
  | .ok buf1 =>
    let buf2 := fun j => if off ≤ j ∧ j < off + n then src (j - off) else buf1 j
    .ok (writePhysicalPage cf buf2 page)

/-- The write loop of CheckedFile.cpp lines 372-398 after its first
iteration: `pageOffset` is 0 and each iteration consumes
`min nWrite logicalPageSize` source bytes (the source pointer advance
`buf += n` is modelled by shifting the source function).  As in `readLoop`,
`fuel` is the exact remaining page count (`numPages nWrite` at the call
sites), making the recursion structural. -/
def writeLoop (cf : CheckedFile) (buf src : Nat → Nat) (nWrite page fuel : Nat) :
    Except E57Err CheckedFile :=
  match fuel with
  | 0 => .ok cf
  | fuel + 1 =>
    if nWrite = 0 then .ok cf
    else
      match writePageStep cf buf src 0 (min nWrite logicalPageSize) page with
      | .error e => .error e
      | .ok res =>
        writeLoop res.1 res.2 (fun j => src (j + min nWrite logicalPageSize))
          (nWrite - min nWrite logicalPageSize) (page + 1) fuel

/-- The whole write loop starting at page `page` with in-page offset `off`,
with the per-call page buffer freshly value-initialized to zeros
(`std::vector of char, size physicalPageSize`, CheckedFile.cpp lines
368-370 and 595-597): first iteration consumes
`min nWrite (logicalPageSize - off)` bytes, the rest is `writeLoop` with one
unit of fuel per remaining page. -/
def writePages (cf : CheckedFile) (src : Nat → Nat) (nWrite off page : Nat) :
    Except E57Err CheckedFile :=
  if nWrite = 0 then .ok cf
  else
    match writePageStep cf (fun _ => 0) src off (min nWrite (logicalPageSize - off)) page with
    | .error e => .error e
    | .ok res =>
      writeLoop res.1 res.2 (fun j => src (j + min nWrite (logicalPageSize - off)))
        (nWrite - min nWrite (logicalPageSize - off)) (page + 1)
        (numPages (nWrite - min nWrite (logicalPageSize - off)))

/-- CheckedFile.cpp lines 348-407, `CheckedFile::write`: raise FileReadOnly
on a read-only instance; otherwise write page by page from the current
position, raise `logicalLength_` to the end of the write if it grew, and
leave the cursor just past the end. -/
def CheckedFile.write (cf : CheckedFile) (src : List Nat) : Except E57Err CheckedFile :=
  if cf.readOnly then .error .fileReadOnly
  else
    let endPos := cf.position .logical + src.length
    match writePages cf (fun i => src.getD i 0) src.length
            (cf.getCurrentPageAndOffset.2) (cf.getCurrentPageAndOffset.1) with
    | .error e => .error e
    | .ok cf1 =>
      .ok { (cf1.seek endPos .logical) with logicalLength := max cf1.logicalLength endPos }

/-- CheckedFile.cpp lines 539-635, `CheckedFile::extend`: raise FileReadOnly
on a read-only instance; convert `newLength` to logical if given in Physical
mode; raise Internal when it is smaller than the current logical length;
otherwise seek to the current logical end and run the zero-write loop, then
set `logicalLength_` and leave the cursor at the new end. -/
def CheckedFile.extend (cf : CheckedFile) (newLength : Nat) (omode : OffsetMode) :
    Except E57Err CheckedFile :=
  if cf.readOnly then .error .fileReadOnly
  else
    let newLogicalLength := match omode with
      | .physical => physicalToLogical newLength
      | .logical => newLength
    let currentLogicalLength := cf.length .logical
    if newLogicalLength < currentLogicalLength then .error .internal
    else
      let nWrite := newLogicalLength - currentLogicalLength
      let cf1 := cf.seek currentLogicalLength .logical
      match writePages cf1 (fun _ => 0) nWrite
              (cf1.getCurrentPageAndOffset.2) (cf1.getCurrentPageAndOffset.1) with
      | .error e => .error e
      | .ok cf2 =>
        .ok { (cf2.seek newLogicalLength .logical) with logicalLength := newLogicalLength }

/-- The page buffer produced by the load-and-overwrite part of one write-loop
iteration (`writePageStep` before the page is written back): source bytes on
`[off, off + n)`, the existing page bytes elsewhere when the page is already
on disk, the incoming buffer bytes elsewhere otherwise. -/
def stepBuf (cf : CheckedFile) (buf src : Nat → Nat) (off n page : Nat) : Nat → Nat :=
  fun j =>
    if off ≤ j ∧ j < off + n then src (j - off)
    else if page * physicalPageSize < cf.physLen then pageBytes cf page j
    else buf j

/-- Whether page `p` is touched by a read of `n` bytes from logical offset
`lpos` (no page is visited when `n = 0`: the loop body never runs). -/
def touchedPage (lpos n p : Nat) : Prop :=
  0 < n ∧ lpos / logicalPageSize ≤ p ∧ p * logicalPageSize < lpos + n

instance (lpos n p : Nat) : Decidable (touchedPage lpos n p) := by
  unfold touchedPage; infer_instance

/-- The loop variable `nRead` of CheckedFile.cpp lines 313-342 at the moment
page `p` is processed, for a read of `n` bytes from logical offset `lpos`:
the bytes still to be read once the pages before `p` have been consumed. -/
def remainingAt (lpos n p : Nat) : Nat := n - (p * logicalPageSize - lpos)

/-- The logical bytes `[lpos, lpos + n)` of the image, read off directly
through the offset bijection. -/
def logicalData (cf : CheckedFile) (lpos n : Nat) : List Nat :=
  (List.range n).map fun t => cf.data (logicalToPhysical (lpos + t))

/-- Unwrap a CheckedFile result, with a default for the error case. -/
def getOk (r : Except E57Err CheckedFile) (d : CheckedFile) : CheckedFile :=
  match r with
  | .ok cf => cf
  | .error _ => d

/-- The error of a result, if any. -/
def errOf {α : Type} (r : Except E57Err α) : Option E57Err :=
  match r with
  | .error e => .some e
  | .ok _ => .none

/-- Write `src` into a freshly opened writable CheckedFile, then seek to
logical offset 0 and read back `src.length` bytes (spec section 8, property
1). -/
def writeThenReadBack (policy : Nat) (src : List Nat) : Except E57Err (List Nat) :=
  match (freshWrite policy).write src with
  | .error e => .error e
  | .ok cf1 => readResult (cf1.seek 0 .logical) src.length

/-- A 100-byte writable file (spec section 8, scenario F). -/
def c4file : CheckedFile := getOk ((freshWrite 0).write (List.replicate 100 7)) (freshWrite 0)

/-- A 3-page file written under the sampled policy 50. -/
def c5base : CheckedFile := getOk ((freshWrite 50).write (List.replicate 3060 3)) (freshWrite 50)

/-- Corrupt one byte of the image (model of a storage error): the byte at
physical offset `idx` is replaced by its successor modulo 256, every other
byte is unchanged. -/
def corruptAt (cf : CheckedFile) (idx : Nat) : CheckedFile :=
  { cf with data := fun i => if i = idx then (cf.data i + 1) % 256 else cf.data i }

/-- `c5base` with one byte of the stored checksum of physical page 1
corrupted (physical offset 1024 + 1020 = 2044), so that page 1's stored and
recomputed checksums disagree. -/
def c5file : CheckedFile := corruptAt c5base 2044

/-- A fresh writable file after one 1500-byte write of the byte 1: pages 0
and 1 are created, page 1's data region is covered only on `[0, 480)`. -/
def c9a : CheckedFile := getOk ((freshWrite 0).write (List.replicate 1500 1)) (freshWrite 0)

/-- `c9a` after a second write of 40 bytes of 2 at logical offset 2000,
which raises the logical length to 2040 and makes the logical range
`[1500, 2000)` (the bytes of page 1 the first write never covered)
readable. -/
def c9b : CheckedFile := getOk ((c9a.seek 2000 .logical).write (List.replicate 40 2)) c9a

/-- A fresh writable file after a single one-byte write: the first (and only)
page of the call is fresh, so its uncovered data bytes come from the
zero-initialized per-call page buffer. -/
def c9w : CheckedFile := getOk ((freshWrite 0).write [5]) (freshWrite 0)

/-- A fresh writable file extended to logical length 50. -/
def c6w : CheckedFile := getOk ((freshWrite 0).extend 50 .logical) (freshWrite 0)

/-- A small concrete read-only file under sampled policy 50, for
instantiating the sampled-policy read characterization. -/
def c5small : CheckedFile :=
  { data := fun _ => 7
    physLen := 2048
    cursor := 0
    logicalLength := 1040
    readOnly := true
    checkSumPolicy := 50 }

/-- The close-relevant state of a CheckedFile: the OS descriptor `fd_` (-1
when closed or memory-backed), whether the `bufView_` wrapper is live, and
whether anyone has freed the caller-owned byte buffer behind the memory
backend (the source must never do so). -/
structure CloseModel where
  fd : Int
  hasBufView : Bool
  callerBufferFreed : Bool
deriving DecidableEq, Repr

/-- CheckedFile.cpp lines 637-665, `CheckedFile::close`, with the OS close
result as a parameter: when `fd_ ≥ 0`, a negative OS result raises
CloseFailed, otherwise `fd_` becomes -1; then the BufferView wrapper, if
present, is deleted (`bufView_ = nullptr`) while the caller-owned buffer is
deliberately left alone.  The returned Bool records whether the OS
descriptor close was invoked. -/
def closeOp (s : CloseModel) (osCloseResult : Int) : Except E57Err (CloseModel × Bool) :=
  if 0 ≤ s.fd then
    if osCloseResult < 0 then .error .closeFailed
    else
      let s1 : CloseModel := { s with fd := -1 }
      .ok ((if s1.hasBufView then { s1 with hasBufView := false } else s1), true)
  else
    .ok ((if s.hasBufView then { s with hasBufView := false } else s), false)

/-- CheckedFile.cpp lines 138-160, `BufferView::seek` with SEEK_SET: set the
cursor, clamp to `streamSize` and report failure when the target lies past
the end. -/
def bufViewSeekSet (streamSize offset : Nat) : Bool × Nat :=
  if streamSize < offset then (false, streamSize) else (true, offset)

/-- CheckedFile.cpp lines 716-735, `CheckedFile::readPhysicalPage` for the
memory backend: seek via `BufferView::seek` (a failed seek raises SeekFailed
through `lseek64`), then `BufferView::read` (lines 162-170) copies
physicalPageSize bytes with no bounds check against `streamSize`, so a page
overlapping the end of the caller's buffer is copied from indices past the
buffer (the total function `stream` models whatever memory sits there)
instead of reporting a short read. -/
def readPhysicalPageMem (stream : Nat → Nat) (streamSize page : Nat) :
    Except E57Err (List Nat) :=
  if (bufViewSeekSet streamSize (page * physicalPageSize)).1 then
    .ok ((List.range physicalPageSize).map fun j => stream (page * physicalPageSize + j))
  else .error .seekFailed

/-- A read-only file-backend CheckedFile over the same bytes, for contrast
with the memory backend in claim C10. -/
def fileBacked (stream : Nat → Nat) (streamSize : Nat) : CheckedFile :=
  { data := stream
    physLen := streamSize
    cursor := 0
    logicalLength := physicalToLogical streamSize
    readOnly := true
    checkSumPolicy := 0 }

/-! ### Page geometry and the offset bijection -/

theorem physicalPageSize_eq : physicalPageSize = 1024 := rfl

theorem logicalPageSize_eq : logicalPageSize = 1020 := rfl

theorem logicalToPhysical_eq (l : Nat) :
    logicalToPhysical l = (l / 1020) * 1024 + l % 1020 := rfl

theorem physicalToLogical_eq (p : Nat) :
    physicalToLogical p =
      if p % 1024 ≤ 1020 then (p / 1024) * 1020 + p % 1024 else (p / 1024 + 1) * 1020 := by
  have h1 : p >>> physicalPageSizeLog2 = p / 1024 := by
    rw [Nat.shiftRight_eq_div_pow]
    norm_num [physicalPageSizeLog2]
  have h2 : p &&& physicalPageSizeMask = p % 1024 := by
    have h := Nat.and_pow_two_sub_one_eq_mod p 10
    norm_num at h
    exact h
  unfold physicalToLogical
  simp only [h1, h2, logicalPageSize_eq]

theorem p2l_l2p (l : Nat) : physicalToLogical (logicalToPhysical l) = l := by
  rw [logicalToPhysical_eq, physicalToLogical_eq]
  split_ifs with h <;> omega

theorem l2p_p2l (p : Nat) (h : p % 1024 < 1020) :
    logicalToPhysical (physicalToLogical p) = p := by
  rw [physicalToLogical_eq, if_pos (by omega), logicalToPhysical_eq]
  omega

theorem l2p_add_small (lpos t : Nat) (h : lpos % 1020 + t < 1020) :
    logicalToPhysical (lpos + t) = (lpos / 1020) * 1024 + lpos % 1020 + t := by
  rw [logicalToPhysical_eq]
  omega

/-! ### Accessor simp lemmas -/

theorem seek_data (cf : CheckedFile) (x : Nat) (m : OffsetMode) :
    (cf.seek x m).data = cf.data := rfl

theorem seek_physLen (cf : CheckedFile) (x : Nat) (m : OffsetMode) :
    (cf.seek x m).physLen = cf.physLen := rfl

theorem seek_logicalLength (cf : CheckedFile) (x : Nat) (m : OffsetMode) :
    (cf.seek x m).logicalLength = cf.logicalLength := rfl

theorem seek_readOnly (cf : CheckedFile) (x : Nat) (m : OffsetMode) :
    (cf.seek x m).readOnly = cf.readOnly := rfl

theorem seek_policy (cf : CheckedFile) (x : Nat) (m : OffsetMode) :
    (cf.seek x m).checkSumPolicy = cf.checkSumPolicy := rfl

theorem seek_logical_cursor (cf : CheckedFile) (x : Nat) :
    (cf.seek x .logical).cursor = logicalToPhysical x := rfl

theorem position_logical (cf : CheckedFile) :
    cf.position .logical = physicalToLogical cf.cursor := rfl

theorem length_physical (cf : CheckedFile) : cf.length .physical = cf.physLen := rfl

theorem length_logical (cf : CheckedFile) : cf.length .logical = cf.logicalLength := rfl

theorem position_logical_seek_logical (cf : CheckedFile) (x : Nat) :
    (cf.seek x .logical).position .logical = x := by
  rw [position_logical, seek_logical_cursor, p2l_l2p]

/-! ### backendWriteAt, pointwise -/

theorem backendWriteAt_physLen (cf : CheckedFile) (pos : Nat) (bytes : Nat → Nat) (len : Nat) :
    (backendWriteAt cf pos bytes len).physLen = max cf.physLen (pos + len) := rfl

theorem backendWriteAt_logicalLength (cf : CheckedFile) (pos : Nat) (bytes : Nat → Nat)
    (len : Nat) : (backendWriteAt cf pos bytes len).logicalLength = cf.logicalLength := rfl

theorem backendWriteAt_readOnly (cf : CheckedFile) (pos : Nat) (bytes : Nat → Nat) (len : Nat) :
    (backendWriteAt cf pos bytes len).readOnly = cf.readOnly := rfl

theorem backendWriteAt_policy (cf : CheckedFile) (pos : Nat) (bytes : Nat → Nat) (len : Nat) :
    (backendWriteAt cf pos bytes len).checkSumPolicy = cf.checkSumPolicy := rfl

theorem backendWriteAt_data_in {cf : CheckedFile} {pos len i : Nat} (bytes : Nat → Nat)
    (h1 : pos ≤ i) (h2 : i < pos + len) :
    (backendWriteAt cf pos bytes len).data i = bytes (i - pos) := by
  show (if pos ≤ i ∧ i < pos + len then bytes (i - pos)
        else if cf.physLen ≤ i ∧ i < pos then 0 else cf.data i) = bytes (i - pos)
  rw [if_pos ⟨h1, h2⟩]

theorem backendWriteAt_data_low {cf : CheckedFile} {pos len i : Nat} (bytes : Nat → Nat)
    (h1 : i < pos) (h2 : i < cf.physLen) :
    (backendWriteAt cf pos bytes len).data i = cf.data i := by
  show (if pos ≤ i ∧ i < pos + len then bytes (i - pos)
        else if cf.physLen ≤ i ∧ i < pos then 0 else cf.data i) = cf.data i
  rw [if_neg (by omega), if_neg (by omega)]

theorem backendWriteAt_data_gap {cf : CheckedFile} {pos len i : Nat} (bytes : Nat → Nat)
    (h1 : cf.physLen ≤ i) (h2 : i < pos) :
    (backendWriteAt cf pos bytes len).data i = 0 := by
  show (if pos ≤ i ∧ i < pos + len then bytes (i - pos)
        else if cf.physLen ≤ i ∧ i < pos then 0 else cf.data i) = 0
  rw [if_neg (by omega), if_pos ⟨h1, h2⟩]

theorem backendWriteAt_data_high {cf : CheckedFile} {pos len i : Nat} (bytes : Nat → Nat)
    (h1 : pos + len ≤ i) :
    (backendWriteAt cf pos bytes len).data i = cf.data i := by
  show (if pos ≤ i ∧ i < pos + len then bytes (i - pos)
        else if cf.physLen ≤ i ∧ i < pos then 0 else cf.data i) = cf.data i
  rw [if_neg (by omega), if_neg (by omega)]

/-! ### Checksum helpers -/

theorem swap_uint32_lt (v : Nat) : swap_uint32 v < 2 ^ 32 := by
  unfold swap_uint32
  have h1 : ∀ a b : Nat, a < 2 ^ 32 → b < 2 ^ 32 → (a ||| b) < 2 ^ 32 := fun a b ha hb =>
    Nat.or_lt_two_pow ha hb
  have hshr : ∀ a : Nat, a >>> 16 ≤ a := by
    intro a
    rw [Nat.shiftRight_eq_div_pow]
    exact Nat.div_le_self a (2 ^ 16)
  apply h1
  · have : ((((v <<< 8) &&& 0xFF00FF00) ||| ((v >>> 8) &&& 0x00FF00FF)) <<< 16) &&&
        0xFFFFFFFF ≤ 0xFFFFFFFF := Nat.and_le_right
    omega
  · apply lt_of_le_of_lt (hshr _)
    apply h1
    · have : (v <<< 8) &&& 0xFF00FF00 ≤ 0xFF00FF00 := Nat.and_le_right
      omega
    · have : (v >>> 8) &&& 0x00FF00FF ≤ 0x00FF00FF := Nat.and_le_right
      omega

theorem checksumF_lt (buf : Nat → Nat) : checksumF buf < 2 ^ 32 := swap_uint32_lt _

theorem le4_lt (v j : Nat) : le4 v j < 256 := Nat.mod_lt _ (by norm_num)

theorem setChecksum_low {j : Nat} (buf : Nat → Nat) (h : j < 1020) :
    setChecksum buf j = buf j := by
  unfold setChecksum
  rw [if_neg (by rw [logicalPageSize_eq, physicalPageSize_eq]; omega)]

theorem setChecksum_tail {j : Nat} (buf : Nat → Nat) (h1 : 1020 ≤ j) (h2 : j < 1024) :
    setChecksum buf j = le4 (checksumF buf) (j - 1020) := by
  unfold setChecksum
  rw [if_pos (by rw [logicalPageSize_eq, physicalPageSize_eq]; omega), logicalPageSize_eq]

theorem bufStored_setChecksum (buf : Nat → Nat) :
    bufStored (setChecksum buf) = checksumF buf := by
  have hc := checksumF_lt buf
  unfold bufStored
  rw [logicalPageSize_eq]
  rw [setChecksum_tail buf (by omega) (by omega), setChecksum_tail buf (by omega) (by omega),
    setChecksum_tail buf (by omega) (by omega), setChecksum_tail buf (by omega) (by omega)]
  unfold le4
  norm_num
  omega

theorem checksumF_congr {f g : Nat → Nat} (h : ∀ j, j < 1020 → f j = g j) :
    checksumF f = checksumF g := by
  unfold checksumF bufList
  rw [logicalPageSize_eq]
  have : (List.range 1020).map f = (List.range 1020).map g := by
    apply List.map_congr_left
    intro a ha
    exact h a (List.mem_range.mp ha)
  rw [this]

theorem bufStored_congr {f g : Nat → Nat} (h : ∀ j, 1020 ≤ j → j < 1024 → f j = g j) :
    bufStored f = bufStored g := by
  unfold bufStored
  rw [logicalPageSize_eq]
  rw [h 1020 (by omega) (by omega), h 1021 (by omega) (by omega),
    h 1022 (by omega) (by omega), h 1023 (by omega) (by omega)]

theorem pageOKb_congr {cf cf2 : CheckedFile} {p q : Nat}
    (h : ∀ j, j < 1024 → pageBytes cf p j = pageBytes cf2 q j) :
    pageOKb cf p = pageOKb cf2 q := by
  unfold pageOKb
  rw [bufStored_congr (fun j h1 h2 => h j h2), checksumF_congr (fun j hj => h j (by omega))]

/-! ### writePhysicalPage, pointwise -/

theorem writePhysicalPage_eq (cf : CheckedFile) (buf : Nat → Nat) (page : Nat) :
    writePhysicalPage cf buf page =
      (backendWriteAt cf (page * 1024) (setChecksum buf) 1024, setChecksum buf) := rfl

theorem writePhysicalPage_physLen (cf : CheckedFile) (buf : Nat → Nat) (page : Nat) :
    (writePhysicalPage cf buf page).1.physLen = max cf.physLen (page * 1024 + 1024) := rfl

theorem writePhysicalPage_logicalLength (cf : CheckedFile) (buf : Nat → Nat) (page : Nat) :
    (writePhysicalPage cf buf page).1.logicalLength = cf.logicalLength := rfl

theorem writePhysicalPage_readOnly (cf : CheckedFile) (buf : Nat → Nat) (page : Nat) :
    (writePhysicalPage cf buf page).1.readOnly = cf.readOnly := rfl

theorem writePhysicalPage_policy (cf : CheckedFile) (buf : Nat → Nat) (page : Nat) :
    (writePhysicalPage cf buf page).1.checkSumPolicy = cf.checkSumPolicy := rfl

theorem writePhysicalPage_data_in {i page : Nat} (cf : CheckedFile) (buf : Nat → Nat)
    (h1 : page * 1024 ≤ i) (h2 : i < page * 1024 + 1024) :
    (writePhysicalPage cf buf page).1.data i = setChecksum buf (i - page * 1024) := by
  rw [writePhysicalPage_eq]
  exact backendWriteAt_data_in (setChecksum buf) h1 h2

theorem writePhysicalPage_data_low {i page : Nat} (cf : CheckedFile) (buf : Nat → Nat)
    (h1 : i < page * 1024) (h2 : i < cf.physLen) :
    (writePhysicalPage cf buf page).1.data i = cf.data i := by
  rw [writePhysicalPage_eq]
  exact backendWriteAt_data_low (setChecksum buf) h1 h2

theorem writePhysicalPage_data_gap {i page : Nat} (cf : CheckedFile) (buf : Nat → Nat)
    (h1 : cf.physLen ≤ i) (h2 : i < page * 1024) :
    (writePhysicalPage cf buf page).1.data i = 0 := by
  rw [writePhysicalPage_eq]
  exact backendWriteAt_data_gap (setChecksum buf) h1 h2

theorem writePhysicalPage_data_high {i page : Nat} (cf : CheckedFile) (buf : Nat → Nat)
    (h1 : page * 1024 + 1024 ≤ i) :
    (writePhysicalPage cf buf page).1.data i = cf.data i := by
  rw [writePhysicalPage_eq]
  exact backendWriteAt_data_high (setChecksum buf) h1

theorem writePhysicalPage_pageBytes {j page : Nat} (cf : CheckedFile) (buf : Nat → Nat)
    (h : j < 1024) :
    pageBytes (writePhysicalPage cf buf page).1 page j = setChecksum buf j := by
  unfold pageBytes
  rw [physicalPageSize_eq, writePhysicalPage_data_in cf buf (by omega) (by omega)]
  congr 1
  omega

theorem pageOKb_writePhysicalPage (cf : CheckedFile) (buf : Nat → Nat) (page : Nat) :
    pageOKb (writePhysicalPage cf buf page).1 page = true := by
  unfold pageOKb
  rw [bufStored_congr (fun j h1 h2 => writePhysicalPage_pageBytes cf buf h2),
    checksumF_congr (fun j hj => writePhysicalPage_pageBytes cf buf (by omega)),
    bufStored_setChecksum,
    checksumF_congr (fun j hj => setChecksum_low buf hj)]
  simp

theorem writePhysicalPage_tail {k page : Nat} (cf : CheckedFile) (buf : Nat → Nat)
    (h : k < 4) :
    (writePhysicalPage cf buf page).1.data (page * 1024 + 1020 + k) =
      le4 (checksumF buf) k := by
  rw [writePhysicalPage_data_in cf buf (by omega) (by omega)]
  have h1 : page * 1024 + 1020 + k - page * 1024 = 1020 + k := by omega
  rw [h1, setChecksum_tail buf (by omega) (by omega)]
  have h2 : 1020 + k - 1020 = k := by omega
  rw [h2]

/-! ### numPages arithmetic -/

theorem numPages_eq (n : Nat) : numPages n = (n + 1019) / 1020 := rfl

theorem numPages_zero : numPages 0 = 0 := rfl

theorem numPages_step {n : Nat} (h : n ≠ 0) :
    numPages n = 1 + numPages (n - min n 1020) := by
  rw [numPages_eq, numPages_eq]
  omega

/-! ### One iteration of the write loop -/

theorem writePageStep_eq {cf : CheckedFile} (buf src : Nat → Nat) (off n page : Nat)
    (halign : cf.physLen % 1024 = 0) :
    writePageStep cf buf src off n page =
      .ok (writePhysicalPage cf (stepBuf cf buf src off n page) page) := by
  unfold writePageStep
  rw [length_physical]
  by_cases hp : page * physicalPageSize < cf.physLen
  · have hread : readPhysicalPageF cf page = .ok (pageBytes cf page) := by
      unfold readPhysicalPageF
      rw [if_pos]
      rw [physicalPageSize_eq] at hp ⊢
      omega
    rw [if_pos hp, hread]
    have hb : (fun j => if off ≤ j ∧ j < off + n then src (j - off) else pageBytes cf page j) =
        stepBuf cf buf src off n page := by
      funext j
      unfold stepBuf
      by_cases hc : off ≤ j ∧ j < off + n
      · rw [if_pos hc, if_pos hc]
      · rw [if_neg hc, if_neg hc, if_pos hp]
    show Except.ok (writePhysicalPage cf _ page) = _
    rw [hb]
  · rw [if_neg hp]
    have hb : (fun j => if off ≤ j ∧ j < off + n then src (j - off) else buf j) =
        stepBuf cf buf src off n page := by
      funext j
      unfold stepBuf
      by_cases hc : off ≤ j ∧ j < off + n
      · rw [if_pos hc, if_pos hc]
      · rw [if_neg hc, if_neg hc, if_neg hp]
    show Except.ok (writePhysicalPage cf _ page) = _
    rw [hb]

/-! ### The write loop: success, length growth, data preservation, covered
bytes, and checksum validity of every written page -/

theorem writeLoop_zero (cf : CheckedFile) (buf src : Nat → Nat) (nWrite page : Nat) :
    writeLoop cf buf src nWrite page 0 = .ok cf := rfl

theorem writeLoop_succ (cf : CheckedFile) (buf src : Nat → Nat) (nWrite page fuel : Nat) :
    writeLoop cf buf src nWrite page (fuel + 1) =
      if nWrite = 0 then .ok cf
      else
        match writePageStep cf buf src 0 (min nWrite logicalPageSize) page with
        | .error e => .error e
        | .ok res =>
          writeLoop res.1 res.2 (fun j => src (j + min nWrite logicalPageSize))
            (nWrite - min nWrite logicalPageSize) (page + 1) fuel := rfl

theorem readLoop_zero (cf : CheckedFile) (nRead page : Nat) :
    readLoop cf nRead page 0 = .ok [] := rfl

theorem readLoop_succ (cf : CheckedFile) (nRead page fuel : Nat) :
    readLoop cf nRead page (fuel + 1) =
      if nRead = 0 then .ok []
      else
        match readStep cf 0 (min nRead logicalPageSize) page nRead with
        | .error e => .error e
        | .ok chunk =>
          match readLoop cf (nRead - min nRead logicalPageSize) (page + 1) fuel with
          | .error e => .error e
          | .ok rest => .ok (chunk ++ rest) := rfl

theorem numPages_zero_iff {n : Nat} : numPages n = 0 ↔ n = 0 := by
  unfold numPages
  rw [logicalPageSize_eq]
  omega

theorem writeLoop_spec (fuel : Nat) :
    ∀ (nWrite : Nat) (cf : CheckedFile) (buf src : Nat → Nat) (page : Nat),
      numPages nWrite ≤ fuel →
      cf.physLen % 1024 = 0 →
      ∃ cf2 : CheckedFile, writeLoop cf buf src nWrite page fuel = .ok cf2 ∧
        cf2.physLen % 1024 = 0 ∧
        cf2.logicalLength = cf.logicalLength ∧
        cf2.readOnly = cf.readOnly ∧
        cf2.checkSumPolicy = cf.checkSumPolicy ∧
        (nWrite = 0 → cf2 = cf) ∧
        (nWrite ≠ 0 → cf2.physLen = max cf.physLen ((page + numPages nWrite) * 1024)) ∧
        (∀ i, i < page * 1024 → i < cf.physLen → cf2.data i = cf.data i) ∧
        (∀ i, nWrite ≠ 0 → cf.physLen ≤ i → i < page * 1024 → cf2.data i = 0) ∧
        (∀ i, (page + numPages nWrite) * 1024 ≤ i → cf2.data i = cf.data i) ∧
        (∀ t, t < nWrite → cf2.data ((page + t / 1020) * 1024 + t % 1020) = src t) ∧
        (∀ p, page ≤ p → p < page + numPages nWrite → pageOKb cf2 p = true) ∧
        (∀ p k, page ≤ p → p < page + numPages nWrite → k < 4 →
          cf2.data (p * 1024 + 1020 + k) < 256) := by
  induction fuel with
  | zero =>
    intro nWrite cf buf src page hfuel halign
    have h0 : nWrite = 0 := numPages_zero_iff.mp (Nat.le_zero.mp hfuel)
    subst h0
    exact ⟨cf, writeLoop_zero cf buf src 0 page, halign, rfl, rfl, rfl, fun _ => rfl,
      fun hcon => absurd rfl hcon,
      fun i _ _ => rfl, fun i hcon _ _ => absurd rfl hcon, fun i _ => rfl,
      fun t ht => absurd ht (by omega),
      fun p hp1 hp2 => by rw [numPages_zero] at hp2; omega,
      fun p k hp1 hp2 hk => by rw [numPages_zero] at hp2; omega⟩
  | succ fuel ih =>
    intro nWrite cf buf src page hfuel halign
    by_cases h0 : nWrite = 0
    · subst h0
      refine ⟨cf, ?_, halign, rfl, rfl, rfl, fun _ => rfl, fun hcon => absurd rfl hcon,
        fun i _ _ => rfl, fun i hcon _ _ => absurd rfl hcon, fun i _ => rfl,
        fun t ht => absurd ht (by omega),
        fun p hp1 hp2 => by rw [numPages_zero] at hp2; omega,
        fun p k hp1 hp2 hk => by rw [numPages_zero] at hp2; omega⟩
      rw [writeLoop_succ]
      simp
    · have hstep := writePageStep_eq buf src 0 (min nWrite 1020) page halign
      set B := stepBuf cf buf src 0 (min nWrite 1020) page with hB
      set cf1 := (writePhysicalPage cf B page).1 with hcf1
      have hpl1 : cf1.physLen = max cf.physLen (page * 1024 + 1024) :=
        writePhysicalPage_physLen cf B page
      have halign1 : cf1.physLen % 1024 = 0 := by rw [hpl1]; omega
      have hnum : numPages nWrite = 1 + numPages (nWrite - min nWrite 1020) :=
        numPages_step h0
      obtain ⟨cf2, hrec, hA1, hA2, hA3, hA4, hA5, hA6, hA7, hA8, hA9, hA10, hA11, hA12⟩ :=
        ih (nWrite - min nWrite 1020) cf1 ((writePhysicalPage cf B page).2)
          (fun j => src (j + min nWrite 1020)) (page + 1) (by omega) halign1
      refine ⟨cf2, ?_, hA1, ?_, ?_, ?_, fun hcon => absurd hcon h0, ?_, ?_, ?_, ?_, ?_, ?_, ?_⟩
      · rw [writeLoop_succ, if_neg h0, logicalPageSize_eq, hstep]
        exact hrec
      · rw [hA2]
        exact writePhysicalPage_logicalLength cf B page
      · rw [hA3]
        exact writePhysicalPage_readOnly cf B page
      · rw [hA4]
        exact writePhysicalPage_policy cf B page
      · intro _
        by_cases hz : nWrite - min nWrite 1020 = 0
        · rw [hA5 hz, hpl1, hnum, hz, numPages_zero]
          omega
        · rw [hA6 hz, hpl1, hnum]
          omega
      · intro i hi hilen
        rw [hA7 i (by omega) (by rw [hpl1]; omega)]
        exact writePhysicalPage_data_low cf B hi hilen
      · intro i _ hge hlt
        rw [hA7 i (by omega) (by rw [hpl1]; omega)]
        exact writePhysicalPage_data_gap cf B hge hlt
      · intro i hi
        rw [hnum] at hi
        rw [hA9 i (by omega)]
        exact writePhysicalPage_data_high cf B (by omega)
      · intro t ht
        by_cases hcase : t < min nWrite 1020
        · have hidx : (page + t / 1020) * 1024 + t % 1020 = page * 1024 + t := by omega
          rw [hidx, hA7 (page * 1024 + t) (by omega) (by rw [hpl1]; omega),
            writePhysicalPage_data_in cf B (by omega) (by omega)]
          have h1 : page * 1024 + t - page * 1024 = t := by omega
          rw [h1, setChecksum_low B (by omega), hB]
          unfold stepBuf
          rw [if_pos ⟨by omega, by omega⟩]
          norm_num
        · have hmin : min nWrite 1020 = 1020 := by omega
          have h10 := hA10 (t - 1020) (by omega)
          simp only [] at h10
          have hidx : (page + 1 + (t - 1020) / 1020) * 1024 + (t - 1020) % 1020 =
              (page + t / 1020) * 1024 + t % 1020 := by omega
          have harg : t - 1020 + min nWrite 1020 = t := by omega
          rw [hidx, harg] at h10
          exact h10
      · intro p hp1 hp2
        by_cases hpp : p = page
        · subst hpp
          have hcongr : ∀ j, j < 1024 → pageBytes cf2 p j = pageBytes cf1 p j := by
            intro j hj
            unfold pageBytes
            rw [physicalPageSize_eq]
            exact hA7 (p * 1024 + j) (by omega) (by rw [hpl1]; omega)
          rw [pageOKb_congr hcongr]
          exact pageOKb_writePhysicalPage cf B p
        · rw [hnum] at hp2
          exact hA11 p (by omega) (by omega)
      · intro p k hp1 hp2 hk
        by_cases hpp : p = page
        · subst hpp
          rw [hA7 (p * 1024 + 1020 + k) (by omega) (by rw [hpl1]; omega),
            writePhysicalPage_tail cf B hk]
          exact le4_lt _ _
        · rw [hnum] at hp2
          exact hA12 p k (by omega) (by omega) hk

theorem numPages_off_step {off nWrite : Nat} (hoff : off < 1020) (h0 : nWrite ≠ 0) :
    numPages (off + nWrite) = 1 + numPages (nWrite - min nWrite (1020 - off)) := by
  rw [numPages_eq, numPages_eq]
  omega

/-- The whole write loop (first partial page, then `writeLoop`), started at
logical position `lpos`: success, growth, preservation outside the written
span, source bytes at every covered logical offset, checksum validity and
byte-sized checksum tails of every touched page, and the first-page bytes
the call leaves untouched (existing page data when the page was on disk, the
zero-initialized buffer otherwise). -/
theorem writePages_spec (cf : CheckedFile) (src : Nat → Nat) (nWrite lpos : Nat)
    (halign : cf.physLen % 1024 = 0) :
    ∃ cf2 : CheckedFile,
      writePages cf src nWrite (lpos % 1020) (lpos / 1020) = .ok cf2 ∧
      cf2.physLen % 1024 = 0 ∧
      cf2.logicalLength = cf.logicalLength ∧
      cf2.readOnly = cf.readOnly ∧
      cf2.checkSumPolicy = cf.checkSumPolicy ∧
      (nWrite = 0 → cf2 = cf) ∧
      (nWrite ≠ 0 → cf2.physLen =
        max cf.physLen ((lpos / 1020 + numPages (lpos % 1020 + nWrite)) * 1024)) ∧
      (∀ i, i < (lpos / 1020) * 1024 → i < cf.physLen → cf2.data i = cf.data i) ∧
      (∀ i, nWrite ≠ 0 → cf.physLen ≤ i → i < (lpos / 1020) * 1024 → cf2.data i = 0) ∧
      (∀ i, (lpos / 1020 + numPages (lpos % 1020 + nWrite)) * 1024 ≤ i →
        cf2.data i = cf.data i) ∧
      (∀ t, t < nWrite → cf2.data (logicalToPhysical (lpos + t)) = src t) ∧
      (∀ p, nWrite ≠ 0 → lpos / 1020 ≤ p → p < lpos / 1020 + numPages (lpos % 1020 + nWrite) →
        pageOKb cf2 p = true) ∧
      (∀ p k, nWrite ≠ 0 → lpos / 1020 ≤ p →
        p < lpos / 1020 + numPages (lpos % 1020 + nWrite) → k < 4 →
        cf2.data (p * 1024 + 1020 + k) < 256) ∧
      (∀ j, nWrite ≠ 0 → j < lpos % 1020 →
        cf2.data ((lpos / 1020) * 1024 + j) =
          (if (lpos / 1020) * 1024 < cf.physLen
           then cf.data ((lpos / 1020) * 1024 + j) else 0)) ∧
      (nWrite ≠ 0 → nWrite ≤ 1020 - lpos % 1020 → ∀ j, lpos % 1020 + nWrite ≤ j → j < 1020 →
        cf2.data ((lpos / 1020) * 1024 + j) =
          (if (lpos / 1020) * 1024 < cf.physLen
           then cf.data ((lpos / 1020) * 1024 + j) else 0)) := by
  set page := lpos / 1020 with hpage
  set off := lpos % 1020 with hoff
  have hofflt : off < 1020 := by omega
  by_cases h0 : nWrite = 0
  · subst h0
    refine ⟨cf, ?_, halign, rfl, rfl, rfl, fun _ => rfl, fun hcon => absurd rfl hcon,
      fun i _ _ => rfl, fun i hcon _ _ => absurd rfl hcon, fun i _ => rfl,
      fun t ht => absurd ht (by omega),
      fun p hcon _ _ => absurd rfl hcon,
      fun p k hcon _ _ _ => absurd rfl hcon,
      fun j hcon _ => absurd rfl hcon, fun hcon _ => absurd rfl hcon⟩
    unfold writePages
    simp
  · have hstep := @writePageStep_eq cf (fun _ => 0) src off (min nWrite (1020 - off))
      page halign
    set B := stepBuf cf (fun _ => 0) src off (min nWrite (1020 - off)) page with hB
    set cf1 := (writePhysicalPage cf B page).1 with hcf1
    have hpl1 : cf1.physLen = max cf.physLen (page * 1024 + 1024) :=
      writePhysicalPage_physLen cf B page
    have halign1 : cf1.physLen % 1024 = 0 := by rw [hpl1]; omega
    have hnum : numPages (off + nWrite) = 1 + numPages (nWrite - min nWrite (1020 - off)) :=
      numPages_off_step hofflt h0
    obtain ⟨cf2, hrec, hA1, hA2, hA3, hA4, hA5, hA6, hA7, hA8, hA9, hA10, hA11, hA12⟩ :=
      writeLoop_spec (numPages (nWrite - min nWrite (1020 - off)))
        (nWrite - min nWrite (1020 - off)) cf1 ((writePhysicalPage cf B page).2)
        (fun j => src (j + min nWrite (1020 - off))) (page + 1) (Nat.le_refl _) halign1
    refine ⟨cf2, ?_, hA1, ?_, ?_, ?_, fun hcon => absurd hcon h0, ?_, ?_, ?_, ?_, ?_, ?_, ?_,
      ?_, ?_⟩
    · unfold writePages
      rw [if_neg h0, logicalPageSize_eq, hstep]
      exact hrec
    · rw [hA2]
      exact writePhysicalPage_logicalLength cf B page
    · rw [hA3]
      exact writePhysicalPage_readOnly cf B page
    · rw [hA4]
      exact writePhysicalPage_policy cf B page
    · intro _
      by_cases hz : nWrite - min nWrite (1020 - off) = 0
      · rw [hA5 hz, hpl1, hnum, hz, numPages_zero]
        omega
      · rw [hA6 hz, hpl1, hnum]
        omega
    · intro i hi hilen
      rw [hA7 i (by omega) (by rw [hpl1]; omega)]
      exact writePhysicalPage_data_low cf B hi hilen
    · intro i _ hge hlt
      rw [hA7 i (by omega) (by rw [hpl1]; omega)]
      exact writePhysicalPage_data_gap cf B hge hlt
    · intro i hi
      rw [hnum] at hi
      rw [hA9 i (by omega)]
      exact writePhysicalPage_data_high cf B (by omega)
    · intro t ht
      by_cases hcase : t < min nWrite (1020 - off)
      · have hidx : logicalToPhysical (lpos + t) = page * 1024 + (off + t) := by
          rw [logicalToPhysical_eq]
          omega
        rw [hidx, hA7 (page * 1024 + (off + t)) (by omega) (by rw [hpl1]; omega),
          writePhysicalPage_data_in cf B (by omega) (by omega)]
        have h1 : page * 1024 + (off + t) - page * 1024 = off + t := by omega
        rw [h1, setChecksum_low B (by omega), hB]
        unfold stepBuf
        rw [if_pos ⟨by omega, by omega⟩]
        have h2 : off + t - off = t := by omega
        rw [h2]
      · have hmin : min nWrite (1020 - off) = 1020 - off := by omega
        have h10 := hA10 (t - (1020 - off)) (by omega)
        simp only [] at h10
        have hidx : (page + 1 + (t - (1020 - off)) / 1020) * 1024 +
            (t - (1020 - off)) % 1020 = logicalToPhysical (lpos + t) := by
          rw [logicalToPhysical_eq]
          omega
        have harg : t - (1020 - off) + min nWrite (1020 - off) = t := by omega
        rw [hidx, harg] at h10
        exact h10
    · intro p _ hp1 hp2
      by_cases hpp : p = page
      · rw [hpp]
        have hcongr : ∀ j, j < 1024 → pageBytes cf2 page j = pageBytes cf1 page j := by
          intro j hj
          unfold pageBytes
          rw [physicalPageSize_eq]
          exact hA7 (page * 1024 + j) (by omega) (by rw [hpl1]; omega)
        rw [pageOKb_congr hcongr]
        exact pageOKb_writePhysicalPage cf B page
      · rw [hnum] at hp2
        exact hA11 p (by omega) (by omega)
    · intro p k _ hp1 hp2 hk
      by_cases hpp : p = page
      · rw [hpp]
        rw [hA7 (page * 1024 + 1020 + k) (by omega) (by rw [hpl1]; omega),
          writePhysicalPage_tail cf B hk]
        exact le4_lt _ _
      · rw [hnum] at hp2
        exact hA12 p k (by omega) (by omega) hk
    · intro j _ hj
      rw [hA7 (page * 1024 + j) (by omega) (by rw [hpl1]; omega),
        writePhysicalPage_data_in cf B (by omega) (by omega)]
      have h1 : page * 1024 + j - page * 1024 = j := by omega
      rw [h1, setChecksum_low B (by omega), hB]
      unfold stepBuf
      rw [if_neg (by omega)]
      by_cases hex : page * physicalPageSize < cf.physLen
      · rw [if_pos hex, if_pos (by rw [physicalPageSize_eq] at hex; omega)]
        unfold pageBytes
        rw [physicalPageSize_eq]
      · rw [if_neg hex, if_neg (by rw [physicalPageSize_eq] at hex; omega)]
    · intro _ hsingle j hj1 hj2
      have hz : nWrite - min nWrite (1020 - off) = 0 := by omega
      rw [hA5 hz, writePhysicalPage_data_in cf B (by omega) (by omega)]
      have h1 : page * 1024 + j - page * 1024 = j := by omega
      rw [h1, setChecksum_low B (by omega), hB]
      unfold stepBuf
      rw [if_neg (by omega)]
      by_cases hex : page * physicalPageSize < cf.physLen
      · rw [if_pos hex, if_pos (by rw [physicalPageSize_eq] at hex; omega)]
        unfold pageBytes
        rw [physicalPageSize_eq]
      · rw [if_neg hex, if_neg (by rw [physicalPageSize_eq] at hex; omega)]

/-! ### Shaping CheckedFile.write and CheckedFile.extend over writePages -/

theorem getCurrentPageAndOffset_eq (cf : CheckedFile) :
    cf.getCurrentPageAndOffset =
      (physicalToLogical cf.cursor / 1020, physicalToLogical cf.cursor % 1020) := rfl

theorem write_eq_of_writePages {cf : CheckedFile} {src : List Nat} {cf1 : CheckedFile}
    (hro : cf.readOnly = false)
    (hwp : writePages cf (fun i => src.getD i 0) src.length
      (physicalToLogical cf.cursor % 1020) (physicalToLogical cf.cursor / 1020) = .ok cf1) :
    cf.write src =
      .ok { (cf1.seek (physicalToLogical cf.cursor + src.length) .logical) with
            logicalLength := max cf1.logicalLength
              (physicalToLogical cf.cursor + src.length) } := by
  unfold CheckedFile.write
  simp only [hro, Bool.false_eq_true, if_false, CheckedFile.getCurrentPageAndOffset,
    position_logical, logicalPageSize_eq, length_logical]
  rw [hwp]

theorem extend_eq_of_writePages {cf : CheckedFile} {newLength : Nat} {cf1 : CheckedFile}
    (hro : cf.readOnly = false) (hge : cf.logicalLength ≤ newLength)
    (hwp : writePages (cf.seek cf.logicalLength .logical) (fun _ => 0)
      (newLength - cf.logicalLength)
      (cf.logicalLength % 1020) (cf.logicalLength / 1020) = .ok cf1) :
    cf.extend newLength .logical =
      .ok { (cf1.seek newLength .logical) with logicalLength := newLength } := by
  unfold CheckedFile.extend
  simp only [hro, Bool.false_eq_true, if_false, CheckedFile.getCurrentPageAndOffset,
    position_logical, logicalPageSize_eq, length_logical, seek_logical_cursor, p2l_l2p]
  rw [if_neg (by omega)]
  rw [hwp]

/-! ### The read loop -/

theorem pageOKb_true_iff (cf : CheckedFile) (p : Nat) :
    pageOKb cf p = true ↔ bufStored (pageBytes cf p) = checksumF (pageBytes cf p) := by
  unfold pageOKb
  simp

theorem verifyChecksum_of_ok {cf : CheckedFile} {p : Nat} (h : pageOKb cf p = true) :
    verifyChecksum (pageBytes cf p) = .ok () := by
  unfold verifyChecksum
  rw [if_neg]
  simp only [ne_eq, not_not]
  exact (pageOKb_true_iff cf p).mp h

theorem verifyChecksum_of_bad {cf : CheckedFile} {p : Nat} (h : pageOKb cf p = false) :
    verifyChecksum (pageBytes cf p) = .error .badChecksum := by
  unfold verifyChecksum
  rw [if_pos]
  intro hc
  rw [(pageOKb_true_iff cf p).mpr hc] at h
  simp at h

theorem readPhysicalPageF_ok {cf : CheckedFile} {page : Nat}
    (hr : page * 1024 + 1024 ≤ cf.physLen) :
    readPhysicalPageF cf page = .ok (pageBytes cf page) := by
  unfold readPhysicalPageF
  rw [if_pos]
  rw [physicalPageSize_eq]
  omega

theorem readStep_ok {cf : CheckedFile} {off n page rem : Nat}
    (hr : page * 1024 + 1024 ≤ cf.physLen)
    (h : shouldVerify cf.checkSumPolicy (checksumMod cf.checkSumPolicy) rem page = true →
      pageOKb cf page = true) :
    readStep cf off n page rem =
      .ok ((List.range n).map fun j => cf.data (page * 1024 + (off + j))) := by
  unfold readStep
  rw [readPhysicalPageF_ok hr]
  simp only []
  by_cases hv : shouldVerify cf.checkSumPolicy (checksumMod cf.checkSumPolicy) rem page = true
  · rw [if_pos hv, verifyChecksum_of_ok (h hv)]
    rfl
  · rw [if_neg hv]
    rfl

theorem readStep_bad {cf : CheckedFile} {off n page rem : Nat}
    (hr : page * 1024 + 1024 ≤ cf.physLen)
    (hv : shouldVerify cf.checkSumPolicy (checksumMod cf.checkSumPolicy) rem page = true)
    (hbad : pageOKb cf page = false) :
    readStep cf off n page rem = .error .badChecksum := by
  unfold readStep
  rw [readPhysicalPageF_ok hr]
  simp only []
  rw [if_pos hv, verifyChecksum_of_bad hbad]

theorem readStep_ne_internal (cf : CheckedFile) (off n page rem : Nat) :
    readStep cf off n page rem ≠ .error .internal := by
  unfold readStep
  by_cases hr : page * physicalPageSize + physicalPageSize ≤ cf.physLen
  · have hok : readPhysicalPageF cf page = .ok (pageBytes cf page) := by
      unfold readPhysicalPageF
      rw [if_pos hr]
    rw [hok]
    simp only []
    by_cases hv : shouldVerify cf.checkSumPolicy (checksumMod cf.checkSumPolicy) rem page = true
    · rw [if_pos hv]
      unfold verifyChecksum
      by_cases hb : bufStored (pageBytes cf page) ≠ checksumF (pageBytes cf page)
      · rw [if_pos hb]
        simp
      · rw [if_neg hb]
        simp
    · rw [if_neg hv]
      simp
  · have hbad : readPhysicalPageF cf page = .error .readFailed := by
      unfold readPhysicalPageF
      rw [if_neg hr]
    rw [hbad]
    simp

theorem readLoop_ok (fuel : Nat) :
    ∀ (nRead : Nat) (cf : CheckedFile) (page : Nat),
      numPages nRead ≤ fuel →
      (∀ p, page ≤ p → p < page + numPages nRead → p * 1024 + 1024 ≤ cf.physLen) →
      (∀ p, page ≤ p → p < page + numPages nRead →
        shouldVerify cf.checkSumPolicy (checksumMod cf.checkSumPolicy)
          (nRead - (p - page) * 1020) p = true →
        pageOKb cf p = true) →
      readLoop cf nRead page fuel =
        .ok ((List.range nRead).map fun t =>
          cf.data ((page + t / 1020) * 1024 + t % 1020)) := by
  induction fuel with
  | zero =>
    intro nRead cf page hfuel hread htrig
    have h0 : nRead = 0 := numPages_zero_iff.mp (Nat.le_zero.mp hfuel)
    subst h0
    rw [readLoop_zero]
    simp
  | succ fuel ih =>
    intro nRead cf page hfuel hread htrig
    by_cases h0 : nRead = 0
    · subst h0
      rw [readLoop_succ]
      simp
    · have hnum : numPages nRead = 1 + numPages (nRead - min nRead 1020) := numPages_step h0
      have hstep : readStep cf 0 (min nRead 1020) page nRead =
          .ok ((List.range (min nRead 1020)).map fun j => cf.data (page * 1024 + (0 + j))) := by
        apply readStep_ok (hread page (by omega) (by omega))
        intro hv
        apply htrig page (by omega) (by omega)
        have hr : nRead - (page - page) * 1020 = nRead := by omega
        rw [hr]
        exact hv
      have hrec : readLoop cf (nRead - min nRead 1020) (page + 1) fuel =
          .ok ((List.range (nRead - min nRead 1020)).map fun t =>
            cf.data ((page + 1 + t / 1020) * 1024 + t % 1020)) := by
        apply ih (nRead - min nRead 1020) cf (page + 1) (by omega)
        · intro p hp1 hp2
          apply hread p (by omega)
          rw [hnum]
          omega
        · intro p hp1 hp2 hv
          by_cases hz : nRead - min nRead 1020 = 0
          · rw [hz, numPages_zero] at hp2
            omega
          · apply htrig p (by omega) (by rw [hnum]; omega)
            have hmin : min nRead 1020 = 1020 := by omega
            have hr : nRead - (p - page) * 1020 =
                nRead - min nRead 1020 - (p - (page + 1)) * 1020 := by omega
            rw [hr]
            exact hv
      rw [readLoop_succ, if_neg h0, logicalPageSize_eq, hstep]
      simp only []
      rw [hrec]
      simp only []
      congr 1
      have hsplit : nRead = min nRead 1020 + (nRead - min nRead 1020) := by omega
      conv_rhs => rw [hsplit]
      rw [List.range_add, List.map_append, List.map_map]
      have hleft : (List.range (min nRead 1020)).map
            (fun j => cf.data (page * 1024 + (0 + j))) =
          (List.range (min nRead 1020)).map
            (fun t => cf.data ((page + t / 1020) * 1024 + t % 1020)) := by
        apply List.map_congr_left
        intro a ha
        rw [List.mem_range] at ha
        exact congrArg cf.data (by omega)
      have hright : (List.range (nRead - min nRead 1020)).map
            (fun t => cf.data ((page + 1 + t / 1020) * 1024 + t % 1020)) =
          (List.range (nRead - min nRead 1020)).map
            ((fun t => cf.data ((page + t / 1020) * 1024 + t % 1020)) ∘
              fun x => min nRead 1020 + x) := by
        apply List.map_congr_left
        intro a ha
        rw [List.mem_range] at ha
        simp only [Function.comp_apply]
        exact congrArg cf.data (by omega)
      rw [hleft, hright]

theorem readLoop_bad (fuel : Nat) :
    ∀ (nRead : Nat) (cf : CheckedFile) (page p0 : Nat),
      numPages nRead ≤ fuel →
      page ≤ p0 → p0 < page + numPages nRead →
      (∀ p, page ≤ p → p ≤ p0 → p * 1024 + 1024 ≤ cf.physLen) →
      pageOKb cf p0 = false →
      shouldVerify cf.checkSumPolicy (checksumMod cf.checkSumPolicy)
        (nRead - (p0 - page) * 1020) p0 = true →
      readLoop cf nRead page fuel = .error .badChecksum := by
  induction fuel with
  | zero =>
    intro nRead cf page p0 hfuel hp1 hp2 hread hbad hv
    have h0 : nRead = 0 := numPages_zero_iff.mp (Nat.le_zero.mp hfuel)
    subst h0
    rw [numPages_zero] at hp2
    omega
  | succ fuel ih =>
    intro nRead cf page p0 hfuel hp1 hp2 hread hbad hv
    by_cases h0 : nRead = 0
    · subst h0
      rw [numPages_zero] at hp2
      omega
    · have hnum : numPages nRead = 1 + numPages (nRead - min nRead 1020) := numPages_step h0
      by_cases hpp : p0 = page
      · have hstep : readStep cf 0 (min nRead 1020) page nRead = .error .badChecksum := by
          apply readStep_bad (hread page (by omega) (by omega))
          · rw [hpp] at hv
            have hr : nRead - (page - page) * 1020 = nRead := by omega
            rw [hr] at hv
            exact hv
          · rw [hpp] at hbad
            exact hbad
        rw [readLoop_succ, if_neg h0, logicalPageSize_eq, hstep]
      · by_cases hfb : shouldVerify cf.checkSumPolicy (checksumMod cf.checkSumPolicy)
            nRead page = true ∧ pageOKb cf page = false
        · have hstep : readStep cf 0 (min nRead 1020) page nRead = .error .badChecksum :=
            readStep_bad (hread page (by omega) (by omega)) hfb.1 hfb.2
          rw [readLoop_succ, if_neg h0, logicalPageSize_eq, hstep]
        · have hstep : readStep cf 0 (min nRead 1020) page nRead =
              .ok ((List.range (min nRead 1020)).map fun j =>
                cf.data (page * 1024 + (0 + j))) := by
            apply readStep_ok (hread page (by omega) (by omega))
            intro hvv
            by_cases hb : pageOKb cf page = true
            · exact hb
            · exact absurd ⟨hvv, by simpa using hb⟩ hfb
          have hmin : min nRead 1020 = 1020 := by
            by_cases hz : nRead - min nRead 1020 = 0
            · rw [hnum, hz, numPages_zero] at hp2
              omega
            · omega
          have hrec : readLoop cf (nRead - min nRead 1020) (page + 1) fuel =
              .error .badChecksum := by
            apply ih (nRead - min nRead 1020) cf (page + 1) p0 (by omega) (by omega)
              (by rw [hnum] at hp2; omega) (fun p hq1 hq2 => hread p (by omega) hq2) hbad
            have hr : nRead - (p0 - page) * 1020 =
                nRead - min nRead 1020 - (p0 - (page + 1)) * 1020 := by omega
            rw [hr] at hv
            exact hv
          rw [readLoop_succ, if_neg h0, logicalPageSize_eq, hstep]
          simp only []
          rw [hrec]

theorem readLoop_ne_internal (fuel : Nat) :
    ∀ (nRead : Nat) (cf : CheckedFile) (page : Nat),
      readLoop cf nRead page fuel ≠ .error .internal := by
  induction fuel with
  | zero =>
    intro nRead cf page
    rw [readLoop_zero]
    simp
  | succ fuel ih =>
    intro nRead cf page
    by_cases h0 : nRead = 0
    · subst h0
      rw [readLoop_succ]
      simp
    · rw [readLoop_succ, if_neg h0, logicalPageSize_eq]
      cases hrs : readStep cf 0 (min nRead 1020) page nRead with
      | error e =>
        simp only []
        intro hcon
        injection hcon with he
        subst he
        exact readStep_ne_internal cf 0 (min nRead 1020) page nRead hrs
      | ok chunk =>
        simp only []
        cases hrl : readLoop cf (nRead - min nRead 1020) (page + 1) fuel with
        | error e =>
          simp only []
          intro hcon
          injection hcon with he
          subst he
          exact ih (nRead - min nRead 1020) cf (page + 1) hrl
        | ok rest =>
          simp

/-! ### The whole read loop (readPages) and CheckedFile.read -/

theorem readPages_ok (cf : CheckedFile) (nRead lpos : Nat)
    (hread : ∀ p, touchedPage lpos nRead p → p * 1024 + 1024 ≤ cf.physLen)
    (htrig : ∀ p, touchedPage lpos nRead p →
      shouldVerify cf.checkSumPolicy (checksumMod cf.checkSumPolicy)
        (remainingAt lpos nRead p) p = true →
      pageOKb cf p = true) :
    readPages cf nRead (lpos % 1020) (lpos / 1020) = .ok (logicalData cf lpos nRead) := by
  by_cases h0 : nRead = 0
  · subst h0
    unfold readPages logicalData
    simp
  · set page := lpos / 1020 with hpage
    set off := lpos % 1020 with hoff
    have hofflt : off < 1020 := by omega
    have htouch0 : touchedPage lpos nRead page := by
      unfold touchedPage
      rw [logicalPageSize_eq]
      omega
    have hstep : readStep cf off (min nRead (1020 - off)) page nRead =
        .ok ((List.range (min nRead (1020 - off))).map fun j =>
          cf.data (page * 1024 + (off + j))) := by
      apply readStep_ok (hread page htouch0)
      intro hv
      apply htrig page htouch0
      unfold remainingAt
      rw [logicalPageSize_eq]
      have hr : nRead - (page * 1020 - lpos) = nRead := by omega
      rw [hr]
      exact hv
    have hloop : readLoop cf (nRead - min nRead (1020 - off)) (page + 1)
        (numPages (nRead - min nRead (1020 - off))) =
        .ok ((List.range (nRead - min nRead (1020 - off))).map fun t =>
          cf.data ((page + 1 + t / 1020) * 1024 + t % 1020)) := by
      apply readLoop_ok
      · exact Nat.le_refl _
      · intro p hp1 hp2
        rw [numPages_eq] at hp2
        apply hread p
        unfold touchedPage
        rw [logicalPageSize_eq]
        omega
      · intro p hp1 hp2 hv
        rw [numPages_eq] at hp2
        apply htrig p (by unfold touchedPage; rw [logicalPageSize_eq]; omega)
        unfold remainingAt
        rw [logicalPageSize_eq]
        have hr : nRead - (p * 1020 - lpos) =
            nRead - min nRead (1020 - off) - (p - (page + 1)) * 1020 := by omega
        rw [hr]
        exact hv
    unfold readPages
    rw [if_neg h0, logicalPageSize_eq, hstep]
    simp only []
    rw [hloop]
    simp only []
    congr 1
    unfold logicalData
    have hsplit : nRead = min nRead (1020 - off) + (nRead - min nRead (1020 - off)) := by
      omega
    conv_rhs => rw [hsplit]
    rw [List.range_add, List.map_append, List.map_map]
    have hleft : (List.range (min nRead (1020 - off))).map
          (fun j => cf.data (page * 1024 + (off + j))) =
        (List.range (min nRead (1020 - off))).map
          (fun t => cf.data (logicalToPhysical (lpos + t))) := by
      apply List.map_congr_left
      intro a ha
      rw [List.mem_range] at ha
      refine congrArg cf.data ?_
      rw [logicalToPhysical_eq]
      omega
    have hright : (List.range (nRead - min nRead (1020 - off))).map
          (fun t => cf.data ((page + 1 + t / 1020) * 1024 + t % 1020)) =
        (List.range (nRead - min nRead (1020 - off))).map
          ((fun t => cf.data (logicalToPhysical (lpos + t))) ∘
            fun x => min nRead (1020 - off) + x) := by
      apply List.map_congr_left
      intro a ha
      rw [List.mem_range] at ha
      simp only [Function.comp_apply]
      refine congrArg cf.data ?_
      rw [logicalToPhysical_eq]
      omega
    rw [hleft, hright]

theorem readPages_bad (cf : CheckedFile) (nRead lpos p0 : Nat)
    (hread : ∀ p, touchedPage lpos nRead p → p * 1024 + 1024 ≤ cf.physLen)
    (hp0 : touchedPage lpos nRead p0)
    (hbad : pageOKb cf p0 = false)
    (hv : shouldVerify cf.checkSumPolicy (checksumMod cf.checkSumPolicy)
      (remainingAt lpos nRead p0) p0 = true) :
    readPages cf nRead (lpos % 1020) (lpos / 1020) = .error .badChecksum := by
  obtain ⟨h0, hp01, hp02⟩ := hp0
  rw [logicalPageSize_eq] at hp01 hp02
  set page := lpos / 1020 with hpage
  set off := lpos % 1020 with hoff
  have hofflt : off < 1020 := by omega
  have h0' : nRead ≠ 0 := by omega
  have htouch0 : touchedPage lpos nRead page := by
    unfold touchedPage
    rw [logicalPageSize_eq]
    omega
  unfold remainingAt at hv
  rw [logicalPageSize_eq] at hv
  by_cases hpp : p0 = page
  · have hstep : readStep cf off (min nRead (1020 - off)) page nRead =
        .error .badChecksum := by
      apply readStep_bad (hread page htouch0)
      · rw [hpp] at hv
        have hr : nRead - (page * 1020 - lpos) = nRead := by omega
        rw [hr] at hv
        exact hv
      · rw [hpp] at hbad
        exact hbad
    unfold readPages
    rw [if_neg h0', logicalPageSize_eq, hstep]
  · by_cases hfb : shouldVerify cf.checkSumPolicy (checksumMod cf.checkSumPolicy)
        nRead page = true ∧ pageOKb cf page = false
    · have hstep : readStep cf off (min nRead (1020 - off)) page nRead =
          .error .badChecksum := readStep_bad (hread page htouch0) hfb.1 hfb.2
      unfold readPages
      rw [if_neg h0', logicalPageSize_eq, hstep]
    · have hstep : readStep cf off (min nRead (1020 - off)) page nRead =
          .ok ((List.range (min nRead (1020 - off))).map fun j =>
            cf.data (page * 1024 + (off + j))) := by
        apply readStep_ok (hread page htouch0)
        intro hvv
        by_cases hb : pageOKb cf page = true
        · exact hb
        · exact absurd ⟨hvv, by simpa using hb⟩ hfb
      have hrec : readLoop cf (nRead - min nRead (1020 - off)) (page + 1)
          (numPages (nRead - min nRead (1020 - off))) =
          .error .badChecksum := by
        apply readLoop_bad (numPages (nRead - min nRead (1020 - off)))
          (nRead - min nRead (1020 - off)) cf (page + 1) p0 (Nat.le_refl _) (by omega)
          (by rw [numPages_eq]; omega)
          (fun p hq1 hq2 =>
            hread p (by unfold touchedPage; rw [logicalPageSize_eq]; omega))
          hbad
        have hr : nRead - (p0 * 1020 - lpos) =
            nRead - min nRead (1020 - off) - (p0 - (page + 1)) * 1020 := by omega
        rw [hr] at hv
        exact hv
      unfold readPages
      rw [if_neg h0', logicalPageSize_eq, hstep]
      simp only []
      rw [hrec]

theorem readPages_ne_internal (cf : CheckedFile) (nRead off page : Nat) :
    readPages cf nRead off page ≠ .error .internal := by
  unfold readPages
  by_cases h0 : nRead = 0
  · rw [if_pos h0]
    simp
  · rw [if_neg h0]
    cases hrs : readStep cf off (min nRead (logicalPageSize - off)) page nRead with
    | error e =>
      intro hcon
      injection hcon with he
      subst he
      exact readStep_ne_internal cf off (min nRead (logicalPageSize - off)) page nRead hrs
    | ok chunk =>
      cases hrl : readLoop cf (nRead - min nRead (logicalPageSize - off)) (page + 1)
          (numPages (nRead - min nRead (logicalPageSize - off))) with
      | error e =>
        intro hcon
        injection hcon with he
        subst he
        exact readLoop_ne_internal (numPages (nRead - min nRead (logicalPageSize - off)))
          (nRead - min nRead (logicalPageSize - off)) cf (page + 1) hrl
      | ok rest =>
        simp

theorem read_ok (cf : CheckedFile) (nRead : Nat)
    (hpre : physicalToLogical cf.cursor + nRead ≤ cf.logicalLength)
    (hread : ∀ p, touchedPage (physicalToLogical cf.cursor) nRead p →
      p * 1024 + 1024 ≤ cf.physLen)
    (htrig : ∀ p, touchedPage (physicalToLogical cf.cursor) nRead p →
      shouldVerify cf.checkSumPolicy (checksumMod cf.checkSumPolicy)
        (remainingAt (physicalToLogical cf.cursor) nRead p) p = true →
      pageOKb cf p = true) :
    cf.read nRead = .ok (cf.seek (physicalToLogical cf.cursor + nRead) .logical,
      logicalData cf (physicalToLogical cf.cursor) nRead) := by
  unfold CheckedFile.read
  simp only [position_logical, length_logical, CheckedFile.getCurrentPageAndOffset,
    logicalPageSize_eq]
  rw [if_neg (by omega)]
  rw [readPages_ok cf nRead (physicalToLogical cf.cursor) hread htrig]

theorem read_bad (cf : CheckedFile) (nRead p0 : Nat)
    (hpre : physicalToLogical cf.cursor + nRead ≤ cf.logicalLength)
    (hread : ∀ p, touchedPage (physicalToLogical cf.cursor) nRead p →
      p * 1024 + 1024 ≤ cf.physLen)
    (hp0 : touchedPage (physicalToLogical cf.cursor) nRead p0)
    (hbad : pageOKb cf p0 = false)
    (hv : shouldVerify cf.checkSumPolicy (checksumMod cf.checkSumPolicy)
      (remainingAt (physicalToLogical cf.cursor) nRead p0) p0 = true) :
    cf.read nRead = .error .badChecksum := by
  unfold CheckedFile.read
  simp only [position_logical, length_logical, CheckedFile.getCurrentPageAndOffset,
    logicalPageSize_eq]
  rw [if_neg (by omega)]
  rw [readPages_bad cf nRead (physicalToLogical cf.cursor) p0 hread hp0 hbad hv]

theorem read_internal_iff (cf : CheckedFile) (nRead : Nat) :
    cf.read nRead = .error .internal ↔
      cf.logicalLength < physicalToLogical cf.cursor + nRead := by
  constructor
  · intro h
    by_contra hlt
    push_neg at hlt
    unfold CheckedFile.read at h
    simp only [position_logical, length_logical, CheckedFile.getCurrentPageAndOffset,
      logicalPageSize_eq] at h
    rw [if_neg (by omega)] at h
    cases hrp : readPages cf nRead (physicalToLogical cf.cursor % 1020)
        (physicalToLogical cf.cursor / 1020) with
    | error e =>
      rw [hrp] at h
      injection h with he
      subst he
      exact readPages_ne_internal cf nRead (physicalToLogical cf.cursor % 1020)
        (physicalToLogical cf.cursor / 1020) hrp
    | ok out =>
      rw [hrp] at h
      exact Except.noConfusion h
  · intro h
    unfold CheckedFile.read
    simp only [position_logical, length_logical]
    rw [if_pos (by omega)]

/-! ### Small helpers for the claim proofs -/

theorem freshWrite_physLen (policy : Nat) : (freshWrite policy).physLen = 0 := rfl

theorem freshWrite_logicalLength (policy : Nat) : (freshWrite policy).logicalLength = 0 := rfl

theorem freshWrite_cursor (policy : Nat) : (freshWrite policy).cursor = 0 := rfl

theorem freshWrite_readOnly (policy : Nat) : (freshWrite policy).readOnly = false := rfl

theorem freshWrite_policy (policy : Nat) : (freshWrite policy).checkSumPolicy = policy := rfl

theorem readResult_ok (cf : CheckedFile) (nRead : Nat)
    (hpre : physicalToLogical cf.cursor + nRead ≤ cf.logicalLength)
    (hread : ∀ p, touchedPage (physicalToLogical cf.cursor) nRead p →
      p * 1024 + 1024 ≤ cf.physLen)
    (htrig : ∀ p, touchedPage (physicalToLogical cf.cursor) nRead p →
      shouldVerify cf.checkSumPolicy (checksumMod cf.checkSumPolicy)
        (remainingAt (physicalToLogical cf.cursor) nRead p) p = true →
      pageOKb cf p = true) :
    readResult cf nRead = .ok (logicalData cf (physicalToLogical cf.cursor) nRead) := by
  unfold readResult
  rw [read_ok cf nRead hpre hread htrig]

theorem touchedPage_one {i p : Nat} (h : touchedPage i 1 p) : p = i / 1020 := by
  obtain ⟨h1, h2, h3⟩ := h
  rw [logicalPageSize_eq] at h2 h3
  omega

theorem readResult_byte (cf : CheckedFile) (i : Nat)
    (hpre : i + 1 ≤ cf.logicalLength)
    (hread : (i / 1020) * 1024 + 1024 ≤ cf.physLen)
    (hok : pageOKb cf (i / 1020) = true) :
    readResult (cf.seek i .logical) 1 = .ok [cf.data (logicalToPhysical i)] := by
  have hcur : physicalToLogical (cf.seek i .logical).cursor = i := by
    rw [seek_logical_cursor, p2l_l2p]
  have h := readResult_ok (cf.seek i .logical) 1 (by rw [hcur, seek_logicalLength]; omega)
    (fun p hp => by
      rw [hcur] at hp
      rw [touchedPage_one hp, seek_physLen]
      exact hread)
    (fun p hp _ => by
      rw [hcur] at hp
      rw [touchedPage_one hp]
      exact hok)
  rw [hcur] at h
  rw [h]
  rfl

theorem map_getD_range (l : List Nat) :
    (List.range l.length).map (fun t => l.getD t 0) = l := by
  apply List.ext_getElem
  · simp
  · intro i h1 h2
    simp only [List.getElem_map, List.getElem_range]
    rw [List.getD_eq_getElem l 0 h2]

theorem corruptAt_physLen (cf : CheckedFile) (idx : Nat) :
    (corruptAt cf idx).physLen = cf.physLen := rfl

theorem corruptAt_logicalLength (cf : CheckedFile) (idx : Nat) :
    (corruptAt cf idx).logicalLength = cf.logicalLength := rfl

theorem corruptAt_policy (cf : CheckedFile) (idx : Nat) :
    (corruptAt cf idx).checkSumPolicy = cf.checkSumPolicy := rfl

theorem corruptAt_data_ne (cf : CheckedFile) (idx i : Nat) (h : i ≠ idx) :
    (corruptAt cf idx).data i = cf.data i := by
  show (if i = idx then (cf.data i + 1) % 256 else cf.data i) = cf.data i
  rw [if_neg h]

theorem corruptAt_data_eq (cf : CheckedFile) (idx : Nat) :
    (corruptAt cf idx).data idx = (cf.data idx + 1) % 256 := by
  show (if idx = idx then (cf.data idx + 1) % 256 else cf.data idx) = (cf.data idx + 1) % 256
  rw [if_pos rfl]

/-- A byte bumped by one modulo 256 never equals itself, so a page whose
first stored-checksum byte was corrupted cannot satisfy the stored-equals-
recomputed equation when the other three stored bytes are unchanged. -/
theorem corrupt_byte_clash (b x y z : Nat) (hb : b < 256)
    (h : (b + 1) % 256 + 256 * x + 65536 * y + 16777216 * z =
      b + 256 * x + 65536 * y + 16777216 * z) : False := by
  omega

/-- Bumping the first stored-checksum byte of a checksum-valid page breaks
the stored-equals-recomputed equation: the corrupted page fails
verification. -/
theorem pageOKb_corrupt_false (cf : CheckedFile) (p : Nat)
    (hok : pageOKb cf p = true)
    (hb : cf.data (p * 1024 + 1020) < 256) :
    pageOKb (corruptAt cf (p * 1024 + 1020)) p = false := by
  have hcs : checksumF (pageBytes (corruptAt cf (p * 1024 + 1020)) p) =
      checksumF (pageBytes cf p) := by
    apply checksumF_congr
    intro j hj
    show (corruptAt cf (p * 1024 + 1020)).data (p * physicalPageSize + j) =
      cf.data (p * physicalPageSize + j)
    apply corruptAt_data_ne
    rw [physicalPageSize_eq]
    omega
  have e1 : pageBytes (corruptAt cf (p * 1024 + 1020)) p 1020 =
      (cf.data (p * 1024 + 1020) + 1) % 256 := by
    show (corruptAt cf (p * 1024 + 1020)).data (p * physicalPageSize + 1020) =
      (cf.data (p * 1024 + 1020) + 1) % 256
    rw [physicalPageSize_eq]
    exact corruptAt_data_eq cf (p * 1024 + 1020)
  have e1b : pageBytes cf p 1020 = cf.data (p * 1024 + 1020) := by
    show cf.data (p * physicalPageSize + 1020) = cf.data (p * 1024 + 1020)
    rw [physicalPageSize_eq]
  have e2 : ∀ k, k ≠ 0 → pageBytes (corruptAt cf (p * 1024 + 1020)) p (1020 + k) =
      pageBytes cf p (1020 + k) := by
    intro k hk
    show (corruptAt cf (p * 1024 + 1020)).data (p * physicalPageSize + (1020 + k)) =
      cf.data (p * physicalPageSize + (1020 + k))
    apply corruptAt_data_ne
    rw [physicalPageSize_eq]
    omega
  have hstored := (pageOKb_true_iff cf p).mp hok
  by_contra hc1
  rw [Bool.not_eq_false] at hc1
  have h1 := (pageOKb_true_iff (corruptAt cf (p * 1024 + 1020)) p).mp hc1
  rw [hcs, ← hstored] at h1
  unfold bufStored at h1
  rw [logicalPageSize_eq] at h1
  rw [e1, e1b, e2 1 (by omega), e2 2 (by omega), e2 3 (by omega)] at h1
  exact corrupt_byte_clash (cf.data (p * 1024 + 1020)) _ _ _ hb h1

/-- A failed CheckedFile.read propagates its error through readResult. -/
theorem readResult_error (cf : CheckedFile) (n : Nat) (e : E57Err)
    (h : cf.read n = .error e) : readResult cf n = .error e := by
  unfold readResult
  rw [h]

/-- Writing a byte list into a freshly opened writable file: the canonical
success shape of `CheckedFile.write` together with the facts about the
resulting image needed by the round-trip and corrupted-page claims: page
alignment, the new logical length, preserved mode and policy, the physical
length, the written bytes at every covered logical offset, a valid stored
checksum on every written page, and byte-sized stored-checksum tails. -/
theorem freshWrite_ok (policy : Nat) (src : List Nat) :
    ∃ cfw : CheckedFile,
      (freshWrite policy).write src = .ok cfw ∧
      cfw.physLen % 1024 = 0 ∧
      cfw.logicalLength = src.length ∧
      cfw.readOnly = false ∧
      cfw.checkSumPolicy = policy ∧
      (src.length ≠ 0 → cfw.physLen = numPages src.length * 1024) ∧
      (∀ t, t < src.length → cfw.data (logicalToPhysical t) = src.getD t 0) ∧
      (∀ p, p < numPages src.length → pageOKb cfw p = true) ∧
      (∀ p k, p < numPages src.length → k < 4 → cfw.data (p * 1024 + 1020 + k) < 256) := by
  obtain ⟨cf2, hwp, hA1, hA2, hA3, hA4, hA5, hA6, hA7, hA8, hA9, hA10, hA11, hA12, hA13,
    hA14⟩ := writePages_spec (freshWrite policy) (fun i => src.getD i 0) src.length 0 rfl
  have hc : physicalToLogical (freshWrite policy).cursor = 0 := by
    rw [freshWrite_cursor]
    decide
  have hw := @write_eq_of_writePages (freshWrite policy) src cf2
    rfl (by rw [hc]; exact hwp)
  rw [hc, Nat.zero_add] at hw
  refine ⟨{ (cf2.seek src.length .logical) with
      logicalLength := max cf2.logicalLength src.length }, hw, ?_, ?_, ?_, ?_, ?_, ?_, ?_, ?_⟩
  · exact hA1
  · show max cf2.logicalLength src.length = src.length
    rw [hA2, freshWrite_logicalLength]
    omega
  · show cf2.readOnly = false
    rw [hA3, freshWrite_readOnly]
  · show cf2.checkSumPolicy = policy
    rw [hA4, freshWrite_policy]
  · intro h0
    show cf2.physLen = numPages src.length * 1024
    have hmax := hA6 h0
    rw [freshWrite_physLen] at hmax
    rw [hmax]
    have e1 : (0:Nat) / 1020 = 0 := rfl
    have e2 : (0:Nat) % 1020 = 0 := rfl
    rw [e1, e2]
    simp only [Nat.zero_add]
    omega
  · intro t ht
    have hcov := hA10 t ht
    rw [Nat.zero_add] at hcov
    exact hcov
  · intro p hp
    have h0 : src.length ≠ 0 := by
      intro hz
      rw [hz, numPages_zero] at hp
      omega
    have hb : p < 0 / 1020 + numPages (0 % 1020 + src.length) := by
      have e1 : (0:Nat) / 1020 = 0 := rfl
      have e2 : (0:Nat) % 1020 = 0 := rfl
      rw [e1, e2]
      simp only [Nat.zero_add]
      exact hp
    exact hA11 p h0 (Nat.zero_le p) hb
  · intro p k hp hk
    have h0 : src.length ≠ 0 := by
      intro hz
      rw [hz, numPages_zero] at hp
      omega
    have hb : p < 0 / 1020 + numPages (0 % 1020 + src.length) := by
      have e1 : (0:Nat) / 1020 = 0 := rfl
      have e2 : (0:Nat) % 1020 = 0 := rfl
      rw [e1, e2]
      simp only [Nat.zero_add]
      exact hp
    exact hA12 p k h0 (Nat.zero_le p) hb hk

/-! ### Claim C3 -/

/-- C3 counterexample: the physical offset 1020 satisfies the claim's side
condition (1020 mod physicalPageSize = 1020 ≤ logicalPageSize), yet the
round trip logicalToPhysical (physicalToLogical 1020) lands at 1024, the
start of the next physical page, not back at 1020. -/
theorem c3_counterexample :
    1020 % physicalPageSize ≤ logicalPageSize ∧
      logicalToPhysical (physicalToLogical 1020) ≠ 1020 := by
  decide

/-- C3 (amended): physicalToLogical inverts logicalToPhysical at every
logical offset; in the other direction logicalToPhysical inverts
physicalToLogical exactly for physical offsets with
P mod physicalPageSize strictly below logicalPageSize — at
P mod physicalPageSize = logicalPageSize the round trip maps P to the start
of the following page, as the counterexample shows. -/
theorem c3_bijection_amended :
    (∀ l : Nat, physicalToLogical (logicalToPhysical l) = l) ∧
    (∀ p : Nat, p % physicalPageSize < logicalPageSize →
      logicalToPhysical (physicalToLogical p) = p) := by
  constructor
  · exact p2l_l2p
  · intro p hp
    rw [physicalPageSize_eq, logicalPageSize_eq] at hp
    exact l2p_p2l p hp

theorem c3_bijection_amended_witness :
    physicalToLogical (logicalToPhysical 777777) = 777777 ∧
      logicalToPhysical (physicalToLogical 2500) = 2500 :=
  ⟨c3_bijection_amended.1 777777, c3_bijection_amended.2 2500 (by decide)⟩

/-! ### Claim C2 -/

/-- C2: after writePhysicalPage completes on any page buffer, the four image
bytes at page offsets [1020, 1024) are the little-endian encoding of the
32-bit byte-reversal swap_uint32 (swap the two 16-bit halves and the bytes
within each half) of the CRC-32C (polynomial 0x1EDC6F41, initial value
0xFFFFFFFF, final XOR 0xFFFFFFFF, reflected input and output, computed by
crc32c) of the page's data bytes [0, 1020). -/
theorem c2_checksum_format (cf : CheckedFile) (buf : Nat → Nat) (page : Nat) :
    ((List.range 4).map fun k =>
        (writePhysicalPage cf buf page).1.data (page * 1024 + 1020 + k)) =
      [le4 (swap_uint32 (crc32c (bufList buf 1020))) 0,
       le4 (swap_uint32 (crc32c (bufList buf 1020))) 1,
       le4 (swap_uint32 (crc32c (bufList buf 1020))) 2,
       le4 (swap_uint32 (crc32c (bufList buf 1020))) 3] := by
  have hr : List.range 4 = [0, 1, 2, 3] := rfl
  rw [hr]
  simp only [List.map]
  rw [writePhysicalPage_tail cf buf (by omega), writePhysicalPage_tail cf buf (by omega),
    writePhysicalPage_tail cf buf (by omega), writePhysicalPage_tail cf buf (by omega)]
  rfl

/-- The crc32c model reproduces the published CRC-32C check value: the CRC
of the ASCII bytes of the string of digits 1 through 9 is 0xE3069283. -/
theorem crc32c_check_value : crc32c [49, 50, 51, 52, 53, 54, 55, 56, 57] = 0xE3069283 := by
  set_option maxRecDepth 10000 in decide

/-! ### Claim C4 -/

/-- C4: CheckedFile.read raises Internal exactly when the precondition
position(Logical) + n ≤ length(Logical) is violated, and never otherwise;
in particular on a 100-byte file, seeking to logical offset 100 and reading
1 byte raises Internal. -/
theorem c4_read_internal_iff :
    (∀ (cf : CheckedFile) (nRead : Nat),
      cf.read nRead = .error .internal ↔
        cf.length .logical < cf.position .logical + nRead) ∧
      readResult (c4file.seek 100 .logical) 1 = .error .internal := by
  constructor
  · intro cf nRead
    rw [position_logical, length_logical]
    exact read_internal_iff cf nRead
  · decide

/-! ### Claim C7 -/

/-- C7 counterexample: a short backend write — the backend accepts only 512
of the 1024 requested bytes and returns 512, which is not negative — does
not raise WriteFailed (the source checks only `result < 0`), contrary to the
claim that any failure to write all 1024 bytes raises WriteFailed. -/
theorem c7_counterexample :
    errOf (writePhysicalPageW (freshWrite 0) (fun _ => 0) 0 512) = .none := by
  decide

/-- C7 (amended): writePhysicalPage requests exactly physicalPageSize bytes
from the backend and raises WriteFailed precisely when the backend returns a
negative result; a short nonnegative write goes undetected.  When the
backend accepts the whole page, the physical length covers exactly the
written page. -/
theorem c7_write_failed_amended (cf : CheckedFile) (buf : Nat → Nat) (page : Nat)
    (result : Int) :
    (writePhysicalPageW cf buf page result = .error .writeFailed ↔ result < 0) ∧
    writePhysicalPageW cf buf page 1024 = .ok (writePhysicalPage cf buf page) ∧
    (writePhysicalPage cf buf page).1.physLen = max cf.physLen (page * 1024 + 1024) := by
  refine ⟨?_, ?_, writePhysicalPage_physLen cf buf page⟩
  · unfold writePhysicalPageW
    by_cases hr : result < 0
    · rw [if_pos hr]
      simp [hr]
    · rw [if_neg hr]
      simp [hr]
  · unfold writePhysicalPageW writePhysicalPage
    rw [if_neg (by omega)]
    rfl

/-! ### Claim C8 -/

/-- C8: close is idempotent — after a successful close, a second close
performs no backend operation (the returned flag is false) and produces no
error regardless of the OS result, the BufferView wrapper is released by the
first close, and the caller-owned buffer is never freed. -/
theorem closeOp_eq (s : CloseModel) (r : Int) :
    closeOp s r =
      if 0 ≤ s.fd then
        (if r < 0 then .error .closeFailed
         else .ok (({ fd := -1, hasBufView := false,
                      callerBufferFreed := s.callerBufferFreed } : CloseModel), true))
      else .ok (({ fd := s.fd, hasBufView := false,
                   callerBufferFreed := s.callerBufferFreed } : CloseModel), false) := by
  obtain ⟨fd, bv, cbf⟩ := s
  cases bv <;> by_cases h1 : 0 ≤ fd <;> by_cases h2 : r < 0 <;>
    simp [closeOp, h1, h2]

theorem c8_close_idempotent (s s1 : CloseModel) (r1 r2 : Int) (b1 : Bool)
    (h : closeOp s r1 = .ok (s1, b1)) :
    closeOp s1 r2 = .ok (s1, false) ∧ s1.hasBufView = false ∧
      s1.callerBufferFreed = s.callerBufferFreed := by
  rw [closeOp_eq] at h
  by_cases hfd : 0 ≤ s.fd
  · rw [if_pos hfd] at h
    by_cases hres : r1 < 0
    · rw [if_pos hres] at h
      exact absurd h (by simp)
    · rw [if_neg hres] at h
      injection h with hp
      injection hp with hs hb
      subst hs
      refine ⟨?_, rfl, rfl⟩
      rw [closeOp_eq]
      rw [if_neg (by norm_num)]
  · rw [if_neg hfd] at h
    injection h with hp
    injection hp with hs hb
    subst hs
    refine ⟨?_, rfl, rfl⟩
    rw [closeOp_eq]
    rw [if_neg hfd]

theorem c8_close_idempotent_witness :
    closeOp { fd := -1, hasBufView := false, callerBufferFreed := false } (-7) =
        .ok ({ fd := -1, hasBufView := false, callerBufferFreed := false }, false) ∧
      ({ fd := -1, hasBufView := false, callerBufferFreed := false } : CloseModel).hasBufView =
        false ∧
      ({ fd := -1, hasBufView := false, callerBufferFreed := false } : CloseModel).callerBufferFreed =
        ({ fd := 5, hasBufView := true, callerBufferFreed := false } : CloseModel).callerBufferFreed :=
  c8_close_idempotent { fd := 5, hasBufView := true, callerBufferFreed := false }
    { fd := -1, hasBufView := false, callerBufferFreed := false } 0 (-7) true (by decide)

/-! ### Claim C10 -/

/-- C10: the memory backend's readPhysicalPage never raises ReadFailed:
BufferView.read copies physicalPageSize bytes with no bounds check, so a
page whose range extends past the end of the caller's buffer returns 1024
bytes read from indices past the buffer end instead of reporting a short
read — unlike the file backend, which raises ReadFailed for the same
geometry. -/
theorem c10_memory_unchecked_read (stream : Nat → Nat) (streamSize page : Nat) :
    readPhysicalPageMem stream streamSize page ≠ .error .readFailed ∧
    (page * 1024 ≤ streamSize → streamSize < page * 1024 + 1024 →
      readPhysicalPageMem stream streamSize page =
        .ok ((List.range 1024).map fun j => stream (page * 1024 + j)) ∧
      readPhysicalPageF (fileBacked stream streamSize) page = .error .readFailed) := by
  constructor
  · unfold readPhysicalPageMem
    by_cases hs : streamSize < page * physicalPageSize
    · have hseek : (bufViewSeekSet streamSize (page * physicalPageSize)).1 = false := by
        unfold bufViewSeekSet
        rw [if_pos hs]
      rw [hseek]
      simp
    · have hseek : (bufViewSeekSet streamSize (page * physicalPageSize)).1 = true := by
        unfold bufViewSeekSet
        rw [if_neg hs]
      rw [hseek]
      simp
  · intro h1 h2
    constructor
    · have hseek : (bufViewSeekSet streamSize (page * physicalPageSize)).1 = true := by
        unfold bufViewSeekSet
        rw [if_neg (by rw [physicalPageSize_eq]; omega)]
      unfold readPhysicalPageMem
      rw [hseek]
      simp only [if_true]
      rfl
    · have hpl : (fileBacked stream streamSize).physLen = streamSize := rfl
      unfold readPhysicalPageF
      rw [if_neg (by rw [hpl, physicalPageSize_eq]; omega)]

theorem c10_memory_unchecked_read_witness :
    readPhysicalPageMem (fun i => i % 251) 1500 1 ≠ .error .readFailed ∧
      readPhysicalPageMem (fun i => i % 251) 1500 1 =
        .ok ((List.range 1024).map fun j => (fun i => i % 251) (1 * 1024 + j)) ∧
      readPhysicalPageF (fileBacked (fun i => i % 251) 1500) 1 = .error .readFailed :=
  ⟨(c10_memory_unchecked_read (fun i => i % 251) 1500 1).1,
   ((c10_memory_unchecked_read (fun i => i % 251) 1500 1).2 (by decide) (by decide)).1,
   ((c10_memory_unchecked_read (fun i => i % 251) 1500 1).2 (by decide) (by decide)).2⟩

/-! ### Claim C1 -/

/-- C1: for every checksum policy and byte sequence S, writing S into a
freshly opened writable CheckedFile and then reading S.length bytes from
logical offset 0 yields exactly S. -/
theorem c1_round_trip (policy : Nat) (src : List Nat) :
    writeThenReadBack policy src = .ok src := by
  obtain ⟨cfw, hw, halignW, hllW, hroW, hpolW, hplenW, hdataW, hOKW, htailW⟩ :=
    freshWrite_ok policy src
  unfold writeThenReadBack
  rw [hw]
  simp only []
  have hcur : physicalToLogical (cfw.seek 0 .logical).cursor = 0 := by
    rw [seek_logical_cursor]
    exact p2l_l2p 0
  have hres := readResult_ok (cfw.seek 0 .logical) src.length
    (by rw [hcur, seek_logicalLength, hllW]; omega)
    (fun p hp => by
      rw [hcur] at hp
      unfold touchedPage at hp
      rw [logicalPageSize_eq] at hp
      rw [seek_physLen, hplenW (by omega), numPages_eq]
      omega)
    (fun p hp _ => by
      rw [hcur] at hp
      unfold touchedPage at hp
      rw [logicalPageSize_eq] at hp
      have hcongr : ∀ j, j < 1024 → pageBytes (cfw.seek 0 .logical) p j = pageBytes cfw p j := by
        intro j _
        unfold pageBytes
        rw [seek_data]
      rw [pageOKb_congr hcongr]
      apply hOKW
      rw [numPages_eq]
      omega)
  rw [hcur] at hres
  rw [hres]
  unfold logicalData
  have hmap : (List.range src.length).map
      (fun t => (cfw.seek 0 .logical).data (logicalToPhysical (0 + t))) =
      (List.range src.length).map (fun t => src.getD t 0) := by
    apply List.map_congr_left
    intro t ht
    rw [List.mem_range] at ht
    rw [Nat.zero_add]
    exact hdataW t ht
  rw [hmap, map_getD_range]

/-! ### Claim C9 -/

/-- C9 counterexample: the per-call page buffer is zero-filled only once per
write call and then reused across the loop's iterations, so a later fresh
page keeps stale bytes from the previous iteration.  In `c9a` a single
1500-byte write of the byte 1 creates pages 0 and 1; logical offsets
[1500, 2040) of page 1 were never covered by any write, yet after a second
write (`c9b`) raises the logical length, the uncovered logical byte 1600
reads back as the stale byte 1, not as 0x00. -/
theorem c9_counterexample :
    readResult (c9b.seek 1600 .logical) 1 = .ok [1] ∧
      readResult (c9b.seek 1600 .logical) 1 ≠ .ok [0] := by
  set_option maxRecDepth 100000 in decide

/-- C9 (amended): the zero-initialized page buffer guarantee holds for the
first page of a write call: when a write lands entirely within one page
(`pageOffset + n ≤ logicalPageSize`) and that page does not yet exist on
disk, every byte of the page's data region outside the written range comes
from the freshly value-initialized buffer and is 0x00.  (Later fresh pages
of the same call reuse the buffer and can keep stale bytes, as the
counterexample shows.) -/
theorem c9_first_page_zero (cf : CheckedFile) (src : List Nat) (cf1 : CheckedFile)
    (hro : cf.readOnly = false) (halign : cf.physLen % 1024 = 0)
    (hfresh : cf.physLen ≤ (physicalToLogical cf.cursor / 1020) * 1024)
    (hsingle : physicalToLogical cf.cursor % 1020 + src.length ≤ 1020)
    (hne : src.length ≠ 0)
    (hw : cf.write src = .ok cf1) :
    ∀ j, j < 1020 →
      (j < physicalToLogical cf.cursor % 1020 ∨
        physicalToLogical cf.cursor % 1020 + src.length ≤ j) →
      cf1.data ((physicalToLogical cf.cursor / 1020) * 1024 + j) = 0 := by
  obtain ⟨cf2, hwp, hA1, hA2, hA3, hA4, hA5, hA6, hA7, hA8, hA9, hA10, hA11, hA12, hA13,
    hA14⟩ := writePages_spec cf (fun i => src.getD i 0) src.length
      (physicalToLogical cf.cursor) halign
  have hcanon := write_eq_of_writePages hro hwp
  rw [hcanon] at hw
  injection hw with hw1
  subst hw1
  intro j hj hside
  show cf2.data ((physicalToLogical cf.cursor / 1020) * 1024 + j) = 0
  rcases hside with hlt | hge
  · have h13 := hA13 j hne hlt
    rw [if_neg (by omega)] at h13
    exact h13
  · have h14 := hA14 hne (by omega) j hge hj
    rw [if_neg (by omega)] at h14
    exact h14

theorem c9_first_page_zero_witness :
    c9w.data ((physicalToLogical (freshWrite 0).cursor / 1020) * 1024 + 100) = 0 :=
  c9_first_page_zero (freshWrite 0) [5] c9w rfl rfl (by decide) (by decide) (by decide)
    rfl 100 (by decide) (Or.inr (by decide))

/-! ### Claim C6 -/

/-- C6: for a writable page-aligned CheckedFile whose logical bytes are all
backed on disk, extending to any logical length N at least the current
logical length C succeeds with length(Logical) = N, every newly added
logical byte in [C, N) reads back as 0x00 through the checked read path, and
every logical byte in [0, C) is unchanged in the image. -/
theorem c6_extend_zero_fill (cf : CheckedFile) (N : Nat) (cf1 : CheckedFile)
    (hro : cf.readOnly = false) (halign : cf.physLen % 1024 = 0)
    (hcov : ∀ p, p * 1020 < cf.logicalLength → p * 1024 + 1024 ≤ cf.physLen)
    (hN : cf.logicalLength ≤ N)
    (hw : cf.extend N .logical = .ok cf1) :
    cf1.logicalLength = N ∧
    (∀ i, cf.logicalLength ≤ i → i < N →
      readResult (cf1.seek i .logical) 1 = .ok [0]) ∧
    (∀ i, i < cf.logicalLength →
      cf1.data (logicalToPhysical i) = cf.data (logicalToPhysical i)) := by
  obtain ⟨cf2, hwp, hA1, hA2, hA3, hA4, hA5, hA6, hA7, hA8, hA9, hA10, hA11, hA12, hA13,
    hA14⟩ := writePages_spec (cf.seek cf.logicalLength .logical) (fun _ => 0)
      (N - cf.logicalLength) cf.logicalLength (by rw [seek_physLen]; exact halign)
  have hcanon := extend_eq_of_writePages hro hN hwp
  rw [hcanon] at hw
  injection hw with hw1
  subst hw1
  refine ⟨rfl, ?_, ?_⟩
  · intro i hCi hiN
    have hplen2 : cf2.physLen = max cf.physLen
        ((cf.logicalLength / 1020 + numPages (cf.logicalLength % 1020 +
          (N - cf.logicalLength))) * 1024) := by
      have hmax := hA6 (by omega)
      rw [seek_physLen] at hmax
      exact hmax
    have hzero : cf2.data (logicalToPhysical i) = 0 := by
      have hsrc := hA10 (i - cf.logicalLength) (by omega)
      have e : cf.logicalLength + (i - cf.logicalLength) = i := by omega
      rw [e] at hsrc
      exact hsrc
    have hok : pageOKb cf2 (i / 1020) = true := by
      apply hA11 (i / 1020) (by omega) (by omega)
      rw [numPages_eq]
      omega
    have hres := readResult_byte ({ (cf2.seek N .logical) with logicalLength := N }) i
      (by show i + 1 ≤ N; omega)
      (by show (i / 1020) * 1024 + 1024 ≤ cf2.physLen
          rw [hplen2, numPages_eq]
          omega)
      (by
        have hcongr : ∀ j, j < 1024 →
            pageBytes ({ (cf2.seek N .logical) with logicalLength := N }) (i / 1020) j =
              pageBytes cf2 (i / 1020) j := by
          intro j _
          unfold pageBytes
          rfl
        rw [pageOKb_congr hcongr]
        exact hok)
    rw [hres]
    show Except.ok [cf2.data (logicalToPhysical i)] = Except.ok [0]
    rw [hzero]
  · intro i hi
    show cf2.data (logicalToPhysical i) = cf.data (logicalToPhysical i)
    rw [logicalToPhysical_eq]
    by_cases hq : i / 1020 < cf.logicalLength / 1020
    · have h1 : (i / 1020) * 1024 + i % 1020 < (cf.logicalLength / 1020) * 1024 := by omega
      have h2 : (i / 1020) * 1024 + i % 1020 < cf.physLen := by
        have hc := hcov (i / 1020) (by omega)
        omega
      have hlow := hA7 ((i / 1020) * 1024 + i % 1020) h1 (by rw [seek_physLen]; exact h2)
      rw [hlow, seek_data]
    · have hqq : i / 1020 = cf.logicalLength / 1020 := by omega
      by_cases h0 : N - cf.logicalLength = 0
      · have hid := hA5 h0
        rw [hid, seek_data]
      · have h13 := hA13 (i % 1020) h0 (by omega)
        rw [seek_physLen, seek_data] at h13
        have hdisk : (cf.logicalLength / 1020) * 1024 < cf.physLen := by
          have hc := hcov (i / 1020) (by omega)
          omega
        rw [if_pos hdisk] at h13
        rw [hqq]
        exact h13

theorem c6_extend_zero_fill_witness :
    c6w.logicalLength = 50 ∧ readResult (c6w.seek 20 .logical) 1 = .ok [0] :=
  have h := c6_extend_zero_fill (freshWrite 0) 50 c6w rfl rfl
    (fun p hp => absurd hp (by rw [freshWrite_logicalLength]; omega))
    (by rw [freshWrite_logicalLength]; omega) rfl
  ⟨h.1, h.2.1 20 (by rw [freshWrite_logicalLength]; omega) (by omega)⟩

/-! ### Claim C5 -/

/-- C5 counterexample: in `c5file` (a 3-page file written under sampled
policy 50, whose page 1 has one corrupted stored-checksum byte), the read of
100 bytes from logical offset 2000 touches pages 1 and 2, so page 1 is not
the last page of the request, and with checksumMod 50 = 2 page 1 is not a
sampled page either (1 mod 2 is not 0); the claim therefore predicts no
BadChecksum from this read — yet the read raises BadChecksum, because the
source's trigger is `remaining bytes < physicalPageSize` (true already at
page 1, where only 100 bytes remain), not "last page of the request". -/
theorem c5_counterexample :
    1 % checksumMod 50 ≠ 0 ∧
    touchedPage 2000 100 2 ∧
    pageOKb c5file 2 = true ∧
    readResult (c5file.seek 2000 .logical) 100 = .error .badChecksum := by
  obtain ⟨cfw, hw, halignW, hllW, hroW, hpolW, hplenW, hdataW, hOKW, htailW⟩ :=
    freshWrite_ok 50 (List.replicate 3060 3)
  have hlen : (List.replicate 3060 (3:Nat)).length = 3060 := List.length_replicate 3060 3
  rw [hlen] at hllW hplenW hOKW htailW
  have hnp : numPages 3060 = 3 := by decide
  have hbase : c5base = cfw := by
    unfold c5base
    rw [hw]
    rfl
  have hphys : c5file.physLen = 3072 := by
    unfold c5file
    rw [corruptAt_physLen, hbase, hplenW (by omega), hnp]
  have hok1 : pageOKb c5base 1 = true := by
    rw [hbase]
    exact hOKW 1 (by rw [hnp]; omega)
  have hb : c5base.data 2044 < 256 := by
    rw [hbase]
    have htl := htailW 1 0 (by rw [hnp]; omega) (by omega)
    have e : (1:Nat) * 1024 + 1020 + 0 = 2044 := by norm_num
    rw [e] at htl
    exact htl
  have hbad1 : pageOKb c5file 1 = false := by
    unfold c5file
    have e : (2044:Nat) = 1 * 1024 + 1020 := by norm_num
    rw [e]
    apply pageOKb_corrupt_false c5base 1 hok1
    have e4 : (1:Nat) * 1024 + 1020 = 2044 := by norm_num
    rw [e4]
    exact hb
  have hcur : physicalToLogical (c5file.seek 2000 .logical).cursor = 2000 := by
    rw [seek_logical_cursor]
    exact p2l_l2p 2000
  have hll : (c5file.seek 2000 .logical).logicalLength = 3060 := by
    rw [seek_logicalLength]
    unfold c5file
    rw [corruptAt_logicalLength, hbase]
    exact hllW
  have hbadrd := read_bad (c5file.seek 2000 .logical) 100 1
    (by rw [hcur, hll]; omega)
    (fun p hp => by
      rw [hcur] at hp
      unfold touchedPage at hp
      rw [logicalPageSize_eq] at hp
      rw [seek_physLen, hphys]
      omega)
    (by rw [hcur]; unfold touchedPage; rw [logicalPageSize_eq]; omega)
    (by
      have hcongr : ∀ j, j < 1024 →
          pageBytes (c5file.seek 2000 .logical) 1 j = pageBytes c5file 1 j := by
        intro j _
        unfold pageBytes
        rw [seek_data]
      rw [pageOKb_congr hcongr]
      exact hbad1)
    (by
      rw [hcur]
      have hpol : (c5file.seek 2000 .logical).checkSumPolicy = 50 := by
        rw [seek_policy]
        unfold c5file
        rw [corruptAt_policy, hbase]
        exact hpolW
      rw [hpol]
      unfold remainingAt
      rw [logicalPageSize_eq]
      have e : (100:Nat) - (1 * 1020 - 2000) = 100 := by omega
      rw [e]
      decide)
  refine ⟨by decide, by unfold touchedPage; rw [logicalPageSize_eq]; omega, ?_, ?_⟩
  · have hcongr2 : ∀ j, j < 1024 → pageBytes c5file 2 j = pageBytes c5base 2 j := by
      intro j hj
      show c5file.data (2 * physicalPageSize + j) = c5base.data (2 * physicalPageSize + j)
      unfold c5file
      exact corruptAt_data_ne c5base 2044 _ (by rw [physicalPageSize_eq]; omega)
    rw [pageOKb_congr hcongr2, hbase]
    exact hOKW 2 (by rw [hnp]; omega)
  · exact readResult_error (c5file.seek 2000 .logical) 100 .badChecksum hbadrd

/-- C5 (amended): with the read in bounds and every touched page on disk:
under policy All (100) a read raises BadChecksum whenever some touched page
has a corrupted stored checksum; under policy None (0) no page is ever
verified and the read returns the (possibly corrupted) data; and under a
sampled policy (neither None nor All) a read raises BadChecksum exactly when
some touched page has a corrupted stored checksum AND triggers verification,
i.e. it is a sampled page (page mod checksumMod = 0) or FEWER THAN
physicalPageSize BYTES REMAIN to be read when the loop reaches it — the
source's actual condition, which the last page of a request always satisfies
but which a next-to-last page can satisfy too. -/
theorem c5_policy_amended (cf : CheckedFile) (nRead : Nat)
    (hpre : physicalToLogical cf.cursor + nRead ≤ cf.logicalLength)
    (hread : ∀ p, touchedPage (physicalToLogical cf.cursor) nRead p →
      p * 1024 + 1024 ≤ cf.physLen) :
    (cf.checkSumPolicy = 100 →
      ∀ p0, touchedPage (physicalToLogical cf.cursor) nRead p0 →
        pageOKb cf p0 = false →
        readResult cf nRead = .error .badChecksum) ∧
    (cf.checkSumPolicy = 0 →
      readResult cf nRead = .ok (logicalData cf (physicalToLogical cf.cursor) nRead)) ∧
    (cf.checkSumPolicy ≠ 0 → cf.checkSumPolicy ≠ 100 →
      (readResult cf nRead = .error .badChecksum ↔
        ∃ p, touchedPage (physicalToLogical cf.cursor) nRead p ∧ pageOKb cf p = false ∧
          (p % checksumMod cf.checkSumPolicy = 0 ∨
            remainingAt (physicalToLogical cf.cursor) nRead p < physicalPageSize))) := by
  refine ⟨?_, ?_, ?_⟩
  · intro hall p0 hp0 hbad
    have hv : shouldVerify cf.checkSumPolicy (checksumMod cf.checkSumPolicy)
        (remainingAt (physicalToLogical cf.cursor) nRead p0) p0 = true := by
      unfold shouldVerify
      rw [hall, if_neg (by omega), if_pos rfl]
    exact readResult_error cf nRead .badChecksum
      (read_bad cf nRead p0 hpre hread hp0 hbad hv)
  · intro hnone
    apply readResult_ok cf nRead hpre hread
    intro p hp hv
    unfold shouldVerify at hv
    rw [hnone, if_pos rfl] at hv
    exact absurd hv (by simp)
  · intro hpol0 hpol100
    constructor
    · intro h
      by_contra hno
      have htrig : ∀ p, touchedPage (physicalToLogical cf.cursor) nRead p →
          shouldVerify cf.checkSumPolicy (checksumMod cf.checkSumPolicy)
            (remainingAt (physicalToLogical cf.cursor) nRead p) p = true →
          pageOKb cf p = true := by
        intro p hp hv
        cases hOKp : pageOKb cf p with
        | true => rfl
        | false =>
          exfalso
          apply hno
          refine ⟨p, hp, hOKp, ?_⟩
          unfold shouldVerify at hv
          rw [if_neg hpol0, if_neg hpol100] at hv
          simp only [Bool.or_eq_true, beq_iff_eq, decide_eq_true_eq] at hv
          exact hv
      have hres := readResult_ok cf nRead hpre hread htrig
      rw [hres] at h
      exact Except.noConfusion h
    · rintro ⟨p, hp, hbad, hd⟩
      have hv : shouldVerify cf.checkSumPolicy (checksumMod cf.checkSumPolicy)
          (remainingAt (physicalToLogical cf.cursor) nRead p) p = true := by
        unfold shouldVerify
        rw [if_neg hpol0, if_neg hpol100]
        simp only [Bool.or_eq_true, beq_iff_eq, decide_eq_true_eq]
        exact hd
      exact readResult_error cf nRead .badChecksum
        (read_bad cf nRead p hpre hread hp hbad hv)

theorem c5_policy_amended_witness :
    readResult c5small 1000 = .error .badChecksum ↔
      ∃ p, touchedPage (physicalToLogical c5small.cursor) 1000 p ∧
        pageOKb c5small p = false ∧
        (p % checksumMod c5small.checkSumPolicy = 0 ∨
          remainingAt (physicalToLogical c5small.cursor) 1000 p < physicalPageSize) :=
  (c5_policy_amended c5small 1000 (by decide)
    (fun p hp => by
      unfold touchedPage at hp
      rw [logicalPageSize_eq] at hp
      have hc : physicalToLogical c5small.cursor = 0 := by decide
      rw [hc] at hp
      have hpl : c5small.physLen = 2048 := rfl
      rw [hpl]
      omega)).2.2 (by decide) (by decide)

end E57
